import Mathlib

/-!
Shallow embedding of the QXChain post-quantum cryptography core
(`src/crypto/kyber.py`, `src/crypto/signatures.py`, `src/crypto/quantum_signatures.py`).

Conventions of the embedding:
* Python byte strings are `List Nat` (one entry per byte); Python slices `s[a:b]`
  never raise and are modelled by `drop`/`take`, which matches Python's padding
  behaviour (`int.from_bytes` of a short or empty slice reads the missing bytes
  as zero).
* Polynomial coefficients are unbounded Python integers, modelled as `Int`;
  `%` on `Int` (`Int.emod`) agrees with Python `%` for the positive moduli used here.
* The hash primitives (SHAKE-128, SHAKE-256, SHA3-256) are external library
  dependencies of the source (spec section 6: "treated as trusted library
  dependencies, not reimplemented by this core").  They are modelled as explicit
  function parameters (`XOF`, `H32`) bundled with their output-length contract,
  which is the only property of them the code relies on structurally.
* Loops that index a stream at consecutive positions are embedded as structural
  recursion consuming the stream in the same order; every such Python index is
  in bounds for the exact-length streams produced by the XOF.
-/

set_option maxRecDepth 8192

namespace QXChain

/-- Little-endian unsigned byte decoding, `int.from_bytes(l, "little")`. -/
def fromBytesLE (l : List Nat) : Nat :=
  l.foldr (fun b acc => b + 256 * acc) 0

/-- `int.from_bytes(l, "little", signed=True)`; the empty string decodes to 0. -/
def fromBytesLEs (l : List Nat) : Int :=
  let v := fromBytesLE l
  if 2 * v < 256 ^ l.length then (v : Int) else (v : Int) - ((256 ^ l.length : Nat) : Int)

/-- `v.to_bytes(n, "little")` (digits base 256, little-endian), total variant. -/
def toBytesLE : Nat → Nat → List Nat
  | 0, _ => []
  | n + 1, v => v % 256 :: toBytesLE n (v / 256)

/-- `v.to_bytes(n, "little")` with Python's `OverflowError` made explicit:
out-of-range values raise (`Except.error`). -/
def toBytesLEx (n v : Nat) : Except Unit (List Nat) :=
  if v < 256 ^ n then Except.ok (toBytesLE n v) else Except.error ()

/-- Python slice `l[a:b]` (never raises; clamps to the available bytes). -/
def pySlice (l : List Nat) (a b : Nat) : List Nat :=
  (l.drop a).take (b - a)

/-- An extendable-output hash (SHAKE-128 / SHAKE-256) as the source consumes it:
`xout data n` is `shake(data).digest(n)`, a byte string of length exactly `n`. -/
structure XOF where
  xout : List Nat → Nat → List Nat
  xlen : ∀ d n, (xout d n).length = n

/-- A 256-bit hash (SHA3-256) as the source consumes it: 32 output bytes. -/
structure H32 where
  hout : List Nat → List Nat
  hlen : ∀ d, (hout d).length = 32

/-- The all-zero-stream instance of `XOF`, used to evaluate the engines on
concrete inputs. -/
def zeroXOF : XOF :=
  ⟨fun _ n => List.replicate n 0, fun _ n => by simp⟩

/-- A concrete `H32` instance: the first 32 bytes of the input, zero padded.
Unlike the all-zero hash it distinguishes inputs that differ in their first
32 bytes, which is what the key-derivation mismatch witnesses need. -/
def padH : H32 :=
  ⟨fun d => (d ++ List.replicate 32 0).take 32, fun d => by
    simp [List.length_take]⟩

/-- A concrete `XOF` whose streams start with the little-endian bytes of
8380418 = Q + 1 (for the signature modulus Q = 8380417) and continue with
zeros: the first 5-byte chunk is an out-of-range candidate. -/
def cexXOF : XOF :=
  ⟨fun _ n => (([2, 224, 127, 0, 0] ++ List.replicate n 0).take n), fun d n => by
    simp [List.length_take]
    omega⟩

/-!
## Shared polynomial ring arithmetic

`_poly_add`, `_poly_sub` and `_poly_mul` appear verbatim (up to the class
constant `cls.Q`) in `Kyber1024`, `signatures.QuantumSignature` and
`quantum_signatures.QuantumSignature`; they are embedded once, parametrised by
the modulus `Q`, and instantiated per scheme below.
-/

namespace Ring

/-- `_poly_add`: `[(a[i] + b[i]) % cls.Q for i in range(cls.N)]` with N = 256. -/
def polyAdd (Q : Int) (a b : List Int) : List Int :=
  (List.range 256).map fun i => (a.getD i 0 + b.getD i 0) % Q

/-- `_poly_sub`: `[(a[i] - b[i]) % cls.Q for i in range(cls.N)]` with N = 256. -/
def polySub (Q : Int) (a b : List Int) : List Int :=
  (List.range 256).map fun i => (a.getD i 0 - b.getD i 0) % Q

/-- One iteration of the `_poly_mul` double loop: accumulate `a[i]*b[j]` into
`result[i+j]`, or subtract it from `result[i+j-N]` when `i+j >= N`, reducing
mod `Q` at once. -/
def mulStep (Q : Int) (a b : List Int) (r : List Int) (i j : Nat) : List Int :=
  if i + j < 256 then
    r.set (i + j) ((r.getD (i + j) 0 + a.getD i 0 * b.getD j 0) % Q)
  else
    r.set (i + j - 256) ((r.getD (i + j - 256) 0 - a.getD i 0 * b.getD j 0) % Q)

/-- `_poly_mul`: `result = [0]*N`, then the nested `for i in range(N): for j in
range(N):` update loop. -/
def polyMul (Q : Int) (a b : List Int) : List Int :=
  (List.range 256).foldl
    (fun r i => (List.range 256).foldl (fun r j => mulStep Q a b r i j) r)
    (List.replicate 256 0)

theorem foldl_preserve {α β : Type} {P : β → Prop} {f : β → α → β}
    (h : ∀ b a, P b → P (f b a)) :
    ∀ (l : List α) (init : β), P init → P (l.foldl f init) := by
  intro l
  induction l with
  | nil => intro init hi; exact hi
  | cons x xs ih => intro init hi; exact ih (f init x) (h init x hi)

/-- Elements of a polynomial are in canonical range and its length is 256. -/
def Canon (Q : Int) (r : List Int) : Prop :=
  r.length = 256 ∧ ∀ x ∈ r, 0 ≤ x ∧ x < Q

theorem canon_set {Q : Int} {r : List Int} (h : Canon Q r) {v : Int}
    (hv : 0 ≤ v ∧ v < Q) (k : Nat) : Canon Q (r.set k v) := by
  refine ⟨by simpa using h.1, ?_⟩
  intro x hx
  rcases List.mem_or_eq_of_mem_set hx with hmem | rfl
  · exact h.2 x hmem
  · exact hv

theorem emod_canon {Q : Int} (hQ : 0 < Q) (x : Int) : 0 ≤ x % Q ∧ x % Q < Q :=
  ⟨Int.emod_nonneg x (ne_of_gt hQ), Int.emod_lt_of_pos x hQ⟩

theorem canon_mulStep {Q : Int} (hQ : 0 < Q) (a b : List Int) {r : List Int}
    (h : Canon Q r) (i j : Nat) : Canon Q (mulStep Q a b r i j) := by
  unfold mulStep
  split
  · exact canon_set h (emod_canon hQ _) _
  · exact canon_set h (emod_canon hQ _) _

theorem canon_replicate_zero {Q : Int} (hQ : 0 < Q) :
    Canon Q (List.replicate 256 (0 : Int)) := by
  refine ⟨List.length_replicate .., ?_⟩
  intro x hx
  rcases List.eq_of_mem_replicate hx with rfl
  exact ⟨le_refl 0, hQ⟩

theorem canon_polyMul {Q : Int} (hQ : 0 < Q) (a b : List Int) :
    Canon Q (polyMul Q a b) := by
  unfold polyMul
  refine foldl_preserve ?_ _ _ (canon_replicate_zero hQ)
  intro r i hr
  refine foldl_preserve ?_ _ _ hr
  intro r' j hr'
  exact canon_mulStep hQ a b hr' i j

theorem canon_polyAdd {Q : Int} (hQ : 0 < Q) (a b : List Int) :
    Canon Q (polyAdd Q a b) := by
  refine ⟨by simp [polyAdd], ?_⟩
  intro x hx
  simp only [polyAdd, List.mem_map] at hx
  rcases hx with ⟨i, _, rfl⟩
  exact emod_canon hQ _

theorem canon_polySub {Q : Int} (hQ : 0 < Q) (a b : List Int) :
    Canon Q (polySub Q a b) := by
  refine ⟨by simp [polySub], ?_⟩
  intro x hx
  simp only [polySub, List.mem_map] at hx
  rcases hx with ⟨i, _, rfl⟩
  exact emod_canon hQ _

theorem canon_getD {Q : Int} (hQ : 0 < Q) {r : List Int} (h : Canon Q r)
    (i : Nat) : 0 ≤ r.getD i 0 ∧ r.getD i 0 < Q := by
  by_cases hi : i < r.length
  · have hm : r.getD i 0 ∈ r := by
      rw [List.getD_eq_getElem r 0 hi]
      exact List.getElem_mem hi
    exact h.2 _ hm
  · rw [List.getD_eq_default r 0 (le_of_not_lt hi)]
    exact ⟨le_refl 0, hQ⟩

theorem getD_set_self {l : List Int} {k : Nat} (h : k < l.length) (v : Int) :
    (l.set k v).getD k 0 = v := by
  simp [List.getD_eq_getElem?_getD, List.getElem?_set_self h]

theorem getD_set_ne {l : List Int} {k i : Nat} (h : k ≠ i) (v : Int) :
    (l.set k v).getD i 0 = l.getD i 0 := by
  simp [List.getD_eq_getElem?_getD, List.getElem?_set_ne h]

theorem emod_sub_emod (m n k : Int) : (m % n - k) % n = (m - k) % n := by
  rw [Int.sub_emod, Int.emod_emod, ← Int.sub_emod]

/-- The update sequence of the `_poly_mul` double loop as a flat list of index
pairs, in loop order. -/
def pairSeq : List (Nat × Nat) :=
  (List.range 256).flatMap fun i => (List.range 256).map fun j => (i, j)

theorem foldl_flatMap {α β γ : Type} (f : β → α → β) (g : γ → List α) :
    ∀ (l : List γ) (init : β),
      (l.flatMap g).foldl f init = l.foldl (fun r c => (g c).foldl f r) init := by
  intro l
  induction l with
  | nil => intro init; rfl
  | cons c cs ih => intro init; simp only [List.flatMap_cons, List.foldl_append,
      List.foldl_cons, ih]

theorem polyMul_eq_foldl_pairSeq (Q : Int) (a b : List Int) :
    polyMul Q a b =
      pairSeq.foldl (fun r p => mulStep Q a b r p.1 p.2) (List.replicate 256 0) := by
  rw [polyMul, pairSeq, foldl_flatMap]
  simp only [List.foldl_map]

/-- The signed contribution of the source pair `(i, j)` to output coefficient
`k` of the negacyclic convolution. -/
def contrib (a b : List Int) (p : Nat × Nat) (k : Nat) : Int :=
  if (p.1 + p.2) % 256 = k then
    (if p.1 + p.2 < 256 then a.getD p.1 0 * b.getD p.2 0
     else -(a.getD p.1 0 * b.getD p.2 0))
  else 0

/-- Partial signed sum of the contributions of an update-pair list. -/
def psum (a b : List Int) (ps : List (Nat × Nat)) (k : Nat) : Int :=
  (ps.map fun p => contrib a b p k).sum

/-- Loop invariant of `_poly_mul`: after processing the pairs `ps`, the
accumulator holds each partial signed sum reduced mod `Q`. -/
def MulInv (Q : Int) (a b : List Int) (ps : List (Nat × Nat)) (r : List Int) : Prop :=
  r.length = 256 ∧ ∀ k, r.getD k 0 = psum a b ps k % Q

theorem psum_append_single (a b : List Int) (ps : List (Nat × Nat))
    (p : Nat × Nat) (k : Nat) :
    psum a b (ps ++ [p]) k = psum a b ps k + contrib a b p k := by
  simp [psum]

theorem mulInv_step {Q : Int} {a b : List Int} {ps : List (Nat × Nat)}
    {r : List Int} (h : MulInv Q a b ps r) {i j : Nat} (hi : i < 256)
    (hj : j < 256) : MulInv Q a b (ps ++ [(i, j)]) (mulStep Q a b r i j) := by
  obtain ⟨hlen, hval⟩ := h
  by_cases hlt : i + j < 256
  · have hmod : (i + j) % 256 = i + j := Nat.mod_eq_of_lt hlt
    constructor
    · simp [mulStep, hlt, hlen]
    · intro k
      by_cases hk : k = i + j
      · subst hk
        rw [mulStep, if_pos hlt, getD_set_self (by rw [hlen]; exact hlt), hval,
          Int.emod_add_emod, psum_append_single, contrib]
        simp [hmod, hlt]
      · rw [mulStep, if_pos hlt, getD_set_ne (fun hc => hk hc.symm), hval,
          psum_append_single, contrib]
        simp only [hmod]
        rw [if_neg (fun hc => hk hc.symm), add_zero]
  · have h510 : i + j < 512 := by omega
    have hmod : (i + j) % 256 = i + j - 256 := by omega
    constructor
    · simp [mulStep, hlt, hlen]
    · intro k
      by_cases hk : k = i + j - 256
      · subst hk
        rw [mulStep, if_neg hlt, getD_set_self (by rw [hlen]; omega), hval,
          emod_sub_emod, psum_append_single, contrib]
        simp [hmod, hlt, sub_eq_add_neg]
      · rw [mulStep, if_neg hlt, getD_set_ne (fun hc => hk hc.symm), hval,
          psum_append_single, contrib]
        simp only [hmod]
        rw [if_neg (fun hc => hk hc.symm), add_zero]

theorem foldl_mulInv (Q : Int) (a b : List Int) :
    ∀ (l done : List (Nat × Nat)) (r : List Int),
      (∀ p ∈ l, p.1 < 256 ∧ p.2 < 256) → MulInv Q a b done r →
      MulInv Q a b (done ++ l) (l.foldl (fun r p => mulStep Q a b r p.1 p.2) r) := by
  intro l
  induction l with
  | nil => intro done r _ h; simpa using h
  | cons p ps ih =>
    intro done r hmem h
    have hp := hmem p (List.mem_cons_self ..)
    have h1 := mulInv_step h hp.1 hp.2
    have h2 := ih (done ++ [p]) _ (fun q hq => hmem q (List.mem_cons_of_mem _ hq)) h1
    simpa [List.append_assoc] using h2

theorem mulInv_start (Q : Int) (a b : List Int) :
    MulInv Q a b [] (List.replicate 256 0) := by
  constructor
  · exact List.length_replicate ..
  · intro k
    have : (List.replicate 256 (0 : Int)).getD k 0 = 0 := by
      rw [List.getD_eq_getElem?_getD, List.getElem?_replicate]
      by_cases hk : k < 256 <;> simp [hk]
    rw [this, psum]
    simp

theorem pairSeq_mem {p : Nat × Nat} (hp : p ∈ pairSeq) : p.1 < 256 ∧ p.2 < 256 := by
  simp only [pairSeq, List.mem_flatMap, List.mem_map, List.mem_range] at hp
  obtain ⟨i, hi, j, hj, rfl⟩ := hp
  exact ⟨hi, hj⟩

theorem sum_map_flatMap {α γ : Type} (F : α → Int) (g : γ → List α) :
    ∀ l : List γ, ((l.flatMap g).map F).sum = (l.map fun c => ((g c).map F).sum).sum := by
  intro l
  induction l with
  | nil => rfl
  | cons c cs ih => simp [List.flatMap_cons, ih]

theorem psum_pairSeq (a b : List Int) (k : Nat) :
    psum a b pairSeq k =
      ((List.range 256).map fun i =>
        ((List.range 256).map fun j => contrib a b (i, j) k).sum).sum := by
  rw [psum, pairSeq, sum_map_flatMap]
  simp only [List.map_map]
  rfl

/-- Modelled from the spec's wording (section 4.1 contract, the nearby statement
compared against the source's `_poly_mul`): the coefficient at index
`(i+j) mod N` accumulates `a[i]*b[j]`, the term being negated whenever
`i + j >= N`, and the total is reduced mod `Q`. -/
def negaCoeff (Q : Int) (a b : List Int) (k : Nat) : Int :=
  (((List.range 256).map fun i =>
    ((List.range 256).map fun j =>
      if (i + j) % 256 = k then
        (if i + j < 256 then a.getD i 0 * b.getD j 0
         else -(a.getD i 0 * b.getD j 0))
      else 0).sum).sum) % Q

theorem polyMul_getD (Q : Int) (a b : List Int) (k : Nat) :
    (polyMul Q a b).getD k 0 = negaCoeff Q a b k := by
  have h := foldl_mulInv Q a b pairSeq [] (List.replicate 256 0)
    (fun p hp => pairSeq_mem hp) (mulInv_start Q a b)
  rw [← polyMul_eq_foldl_pairSeq] at h
  have hk := h.2 k
  simp only [List.nil_append] at hk
  rw [hk, psum_pairSeq, negaCoeff]
  rfl

theorem polyMul_length (Q : Int) (a b : List Int) : (polyMul Q a b).length = 256 := by
  have h := foldl_mulInv Q a b pairSeq [] (List.replicate 256 0)
    (fun p hp => pairSeq_mem hp) (mulInv_start Q a b)
  rw [← polyMul_eq_foldl_pairSeq] at h
  exact h.1

end Ring

/-!
## `src/crypto/kyber.py` — class `Kyber1024`

`keygen` draws `os.urandom(32)` and `encaps` draws the 32-byte message
`os.urandom(32)`; both entropy draws are explicit parameters here.  `_shake128`
is the `XOF` parameter, `_sha3_256` and `_kdf` (both `hashlib.sha3_256`) the
`H32` parameter.
-/

namespace Kyber1024

abbrev N : Nat := 256
abbrev Q : Int := 3329
abbrev K : Nat := 4
abbrev ETA1 : Nat := 2

abbrev polyAdd : List Int → List Int → List Int := Ring.polyAdd Q
abbrev polySub : List Int → List Int → List Int := Ring.polySub Q
abbrev polyMul : List Int → List Int → List Int := Ring.polyMul Q

/-- The chunk loop of `_sample_uniform_poly`: 3-byte chunks give two 12-bit
candidates `d1 = stream[i] + 256*(stream[i+1] % 16)` and
`d2 = stream[i+1]//16 + 16*stream[i+2]`; a candidate is kept only if it is
`< Q`.  The source's two sequential conditional writes (each advancing `j`)
are expanded into their four combined cases.  The stream length (3·N) is
divisible by 3, so the Python indices `i`, `i+1`, `i+2` are always in bounds
and consuming 3 bytes per iteration is exact. -/
def uniformLoop : List Nat → Nat → List Int → List Int
  | b0 :: b1 :: b2 :: rest, j, poly =>
    if 256 ≤ j then poly
    else
      if (b0 : Int) + 256 * ((b1 : Int) % 16) < Q then
        if (b1 : Int) / 16 + 16 * (b2 : Int) < Q ∧ j + 1 < 256 then
          uniformLoop rest (j + 2)
            ((poly.set j ((b0 : Int) + 256 * ((b1 : Int) % 16))).set (j + 1)
              ((b1 : Int) / 16 + 16 * (b2 : Int)))
        else uniformLoop rest (j + 1) (poly.set j ((b0 : Int) + 256 * ((b1 : Int) % 16)))
      else
        if (b1 : Int) / 16 + 16 * (b2 : Int) < Q ∧ j < 256 then
          uniformLoop rest (j + 1) (poly.set j ((b1 : Int) / 16 + 16 * (b2 : Int)))
        else uniformLoop rest j poly
  | _, _, poly => poly

/-- `_sample_uniform_poly(seed)`: `stream = shake128(seed, 3*N)`, then the
rejection loop. -/
def sampleUniformPoly (X : XOF) (seed : List Nat) : List Int :=
  uniformLoop (X.xout seed (3 * 256)) 0 (List.replicate 256 0)

/-- `_gen_matrix(rho)`: K×K polynomials, entry (i, j) seeded by `rho + bytes([j, i])`. -/
def genMatrix (X : XOF) (rho : List Nat) : List (List (List Int)) :=
  (List.range 4).map fun i => (List.range 4).map fun j =>
    sampleUniformPoly X (rho ++ [j, i])

/-- `_cbd(stream, eta)`: each coefficient is the difference of two `eta`-bit
sums read at consecutive bit positions, reduced mod Q. -/
def cbd (stream : List Nat) (eta : Nat) : List Int :=
  (List.range 256).map fun i =>
    let a : Nat := ((List.range eta).map fun j =>
      let bitPos := 2 * eta * i + j
      if bitPos / 8 < stream.length then (stream.getD (bitPos / 8) 0 >>> (bitPos % 8)) &&& 1
      else 0).sum
    let b : Nat := ((List.range eta).map fun j =>
      let bitPos := 2 * eta * i + eta + j
      if bitPos / 8 < stream.length then (stream.getD (bitPos / 8) 0 >>> (bitPos % 8)) &&& 1
      else 0).sum
    ((a : Int) - (b : Int)) % Q

/-- `_sample_poly_cbd(seed, eta, k)`: k polynomials, the i-th from
`shake128(seed + bytes([i]), 64*eta)`. -/
def samplePolyCBD (X : XOF) (seed : List Nat) (eta k : Nat) : List (List Int) :=
  (List.range k).map fun i => cbd (X.xout (seed ++ [i]) (64 * eta)) eta

/-- `_matrix_vector_mul(A, v)`. -/
def matrixVectorMul (A : List (List (List Int))) (v : List (List Int)) :
    List (List Int) :=
  (List.range A.length).map fun i =>
    (List.range v.length).foldl
      (fun s j => polyAdd s (polyMul ((A.getD i []).getD j []) (v.getD j [])))
      (List.replicate 256 0)

/-- `_matrix_transpose_vector_mul(A, v)`. -/
def matrixTransposeVectorMul (A : List (List (List Int))) (v : List (List Int)) :
    List (List Int) :=
  (List.range (A.getD 0 []).length).map fun j =>
    (List.range A.length).foldl
      (fun s i => polyAdd s (polyMul ((A.getD i []).getD j []) (v.getD i [])))
      (List.replicate 256 0)

/-- `_vector_add(a, b)`. -/
def vectorAdd (a b : List (List Int)) : List (List Int) :=
  (List.range a.length).map fun i => polyAdd (a.getD i []) (b.getD i [])

/-- `_vector_dot_product(a, b)`. -/
def vectorDotProduct (a b : List (List Int)) : List Int :=
  (List.range a.length).foldl
    (fun s i => polyAdd s (polyMul (a.getD i []) (b.getD i [])))
    (List.replicate 256 0)

/-- `_decode_message(m)`: bit `j` of byte `i` becomes coefficient
`bit * (Q // 2)` at position `8*i + j`. -/
def decodeMessage (m : List Nat) : List Int :=
  (List.range 32).foldl (fun poly i =>
    (List.range 8).foldl (fun poly j =>
      let bit : Nat := (m.getD i 0 >>> j) &&& 1
      if i * 8 + j < 256 then poly.set (i * 8 + j) ((bit : Int) * (Q / 2)) else poly)
      poly)
    (List.replicate 256 0)

/-- `_encode_message(poly)`: bit is 1 exactly when the coefficient is
strictly greater than `Q // 2`; bits are OR-ed into a 32-byte buffer. -/
def encodeMessage (poly : List Int) : List Nat :=
  (List.range 256).foldl (fun m i =>
    let bit : Nat := if Q / 2 < poly.getD i 0 then 1 else 0
    if i / 8 < 32 then m.set (i / 8) (m.getD (i / 8) 0 ||| (bit <<< (i % 8))) else m)
    (List.replicate 32 0)

/-- `coeff.to_bytes(2, "little")` over a polynomial (`_pack_*` inner loops). -/
def packPoly2 (p : List Int) : List Nat :=
  p.flatMap fun c => toBytesLE 2 c.toNat

/-- `_pack_public_key(t, rho)`. -/
def packPublicKey (t : List (List Int)) (rho : List Nat) : List Nat :=
  rho ++ t.flatMap packPoly2

/-- `_pack_private_key(s)`. -/
def packPrivateKey (s : List (List Int)) : List Nat :=
  s.flatMap packPoly2

/-- `_pack_ciphertext(u, v)`. -/
def packCiphertext (u : List (List Int)) (v : List Int) : List Nat :=
  u.flatMap packPoly2 ++ packPoly2 v

/-- `n` sequential reads of `int.from_bytes(s[off:off+2], "little")`,
advancing the offset by 2; a missing or truncated slice reads as 0. -/
def readChunks2 : Nat → List Nat → List Int
  | 0, _ => []
  | n + 1, s => ((fromBytesLE (s.take 2) : Nat) : Int) :: readChunks2 n (s.drop 2)

/-- Split a flat coefficient list into `k` polynomials of 256 coefficients. -/
def group256 : Nat → List Int → List (List Int)
  | 0, _ => []
  | k + 1, l => l.take 256 :: group256 k (l.drop 256)

/-- `_unpack_public_key(pk)`: returns `(t, rho)`. -/
def unpackPublicKey (pk : List Nat) : List (List Int) × List Nat :=
  (group256 4 (readChunks2 1024 (pk.drop 32)), pySlice pk 0 32)

/-- `_unpack_private_key(sk)`. -/
def unpackPrivateKey (sk : List Nat) : List (List Int) :=
  group256 4 (readChunks2 1024 sk)

/-- `_unpack_ciphertext(ct)`: returns `(u, v)`. -/
def unpackCiphertext (ct : List Nat) : List (List Int) × List Int :=
  (group256 4 (readChunks2 1024 ct), readChunks2 256 (ct.drop 2048))

/-- `keygen()`, with the `os.urandom(32)` draw as the `seed` parameter. -/
def keygen (X : XOF) (seed : List Nat) : List Nat × List Nat :=
  let rho := X.xout seed 32
  let sigma := X.xout (seed ++ [1]) 32
  let A := genMatrix X rho
  let s := samplePolyCBD X sigma 2 4
  let e := samplePolyCBD X (sigma ++ [1]) 2 4
  let t := vectorAdd (matrixVectorMul A s) e
  (packPublicKey t rho, packPrivateKey s)

/-- `encaps(pk)`, with the `os.urandom(32)` message draw as the `m` parameter;
returns `(ciphertext, shared_secret)`. -/
def encaps (X : XOF) (H : H32) (pk m : List Nat) : List Nat × List Nat :=
  let tr := unpackPublicKey pk
  let r := X.xout m 32
  let A := genMatrix X tr.2
  let rVec := samplePolyCBD X r 2 4
  let e1 := samplePolyCBD X (r ++ [1]) 2 4
  let e2 := (samplePolyCBD X (r ++ [2]) 2 1).getD 0 []
  let u := vectorAdd (matrixTransposeVectorMul A rVec) e1
  let v := polyAdd (polyAdd (vectorDotProduct tr.1 rVec) e2) (decodeMessage m)
  let ct := packCiphertext u v
  (ct, H.hout (m ++ H.hout ct))

/-- `decaps(ct, sk)`: recover `m' = encode(v - s·u)` and re-derive the shared
secret `kdf(m' + sha3(ct))`. -/
def decaps (H : H32) (ct sk : List Nat) : List Nat :=
  let s := unpackPrivateKey sk
  let uv := unpackCiphertext ct
  let m := encodeMessage (polySub uv.2 (vectorDotProduct s uv.1))
  H.hout (m ++ H.hout ct)

end Kyber1024

/-!
## Zero-propagation lemmas

These drive the concrete evaluations of the engines: a polynomial whose reads
are all zero (`[]` or `[0]*256`) multiplies to the zero polynomial, so matrix
and vector products with zero operands can be simplified without running the
65536-step multiplication loop.
-/

theorem getD_replicate {α : Type} (x y : α) (n i : Nat) :
    (List.replicate n x).getD i y = if i < n then x else y := by
  rw [List.getD_eq_getElem?_getD, List.getElem?_replicate]
  by_cases h : i < n <;> simp [h]

theorem getD_replicate_zero (n i : Nat) :
    (List.replicate n (0 : Int)).getD i 0 = 0 := by
  rw [getD_replicate]
  by_cases h : i < n <;> simp [h]

/-- All reads of the polynomial are zero (covers both `[]` and `[0]*256`). -/
def ZeroLike (a : List Int) : Prop := ∀ i, a.getD i 0 = 0

theorem zeroLike_replicate (n : Nat) : ZeroLike (List.replicate n 0) :=
  fun i => getD_replicate_zero n i

theorem zeroLike_nil : ZeroLike [] := fun i => by
  simp [List.getD]

theorem polyMul_zerolike_left {Q : Int} {a : List Int} (ha : ZeroLike a)
    (b : List Int) : Ring.polyMul Q a b = List.replicate 256 0 := by
  unfold Ring.polyMul
  refine Ring.foldl_preserve (P := fun r => r = List.replicate 256 0) ?_ _ _ rfl
  intro r i hr
  refine Ring.foldl_preserve (P := fun r => r = List.replicate 256 0) ?_ _ _ hr
  intro r' j hr'
  subst hr'
  unfold Ring.mulStep
  split
  · rw [ha i, getD_replicate_zero, zero_mul, add_zero, Int.zero_emod]
    exact List.set_replicate_self
  · rw [ha i, getD_replicate_zero, zero_mul, sub_zero, Int.zero_emod]
    exact List.set_replicate_self

theorem polyMul_zerolike_right {Q : Int} {b : List Int} (hb : ZeroLike b)
    (a : List Int) : Ring.polyMul Q a b = List.replicate 256 0 := by
  unfold Ring.polyMul
  refine Ring.foldl_preserve (P := fun r => r = List.replicate 256 0) ?_ _ _ rfl
  intro r i hr
  refine Ring.foldl_preserve (P := fun r => r = List.replicate 256 0) ?_ _ _ hr
  intro r' j hr'
  subst hr'
  unfold Ring.mulStep
  split
  · rw [hb j, getD_replicate_zero, mul_zero, add_zero, Int.zero_emod]
    exact List.set_replicate_self
  · rw [hb j, getD_replicate_zero, mul_zero, sub_zero, Int.zero_emod]
    exact List.set_replicate_self

theorem map_range_const {α : Type} (n : Nat) (c : α) :
    (List.range n).map (fun _ => c) = List.replicate n c := by
  rw [List.map_const']
  simp

theorem polyAdd_zerolike {Q : Int} {a b : List Int} (ha : ZeroLike a)
    (hb : ZeroLike b) : Ring.polyAdd Q a b = List.replicate 256 0 := by
  unfold Ring.polyAdd
  have h : ∀ i : Nat, (a.getD i 0 + b.getD i 0) % Q = 0 := by
    intro i
    rw [ha i, hb i, add_zero, Int.zero_emod]
  simp only [h]
  exact map_range_const 256 0

theorem fold_add_zero (Q : Int) (f : Nat → List Int)
    (hf : ∀ j, f j = List.replicate 256 0) (l : List Nat) :
    l.foldl (fun s j => Ring.polyAdd Q s (f j)) (List.replicate 256 0) =
      List.replicate 256 0 := by
  refine Ring.foldl_preserve (P := fun r => r = List.replicate 256 0) ?_ _ _ rfl
  intro r j hr
  subst hr
  rw [hf j]
  exact polyAdd_zerolike (zeroLike_replicate 256) (zeroLike_replicate 256)

/-!
## Concrete evaluation of the KEM on the all-zero XOF

With `zeroXOF`, every sampled polynomial is zero, so the keypair derived from
any seed is the zero keypair (`t = A·s + e = 0`, `s = 0`), the ciphertext for
message `m` is `u = 0`, `v = decode(m)` — the noiseless case of the scheme.
-/

theorem kyber_uniform_zero (seed : List Nat) :
    Kyber1024.sampleUniformPoly zeroXOF seed = List.replicate 256 0 := by
  show Kyber1024.uniformLoop (List.replicate 768 0) 0 (List.replicate 256 0) =
    List.replicate 256 0
  decide

theorem kyber_genMatrix_zero (rho : List Nat) :
    Kyber1024.genMatrix zeroXOF rho =
      List.replicate 4 (List.replicate 4 (List.replicate 256 0)) := by
  unfold Kyber1024.genMatrix
  simp only [kyber_uniform_zero]
  decide

theorem kyber_cbd_zero : Kyber1024.cbd (List.replicate 128 0) 2 = List.replicate 256 0 := by
  decide

theorem kyber_cbdvec_zero (seed : List Nat) (k : Nat) :
    Kyber1024.samplePolyCBD zeroXOF seed 2 k =
      List.replicate k (List.replicate 256 0) := by
  unfold Kyber1024.samplePolyCBD
  have h : ∀ i : Nat, Kyber1024.cbd (zeroXOF.xout (seed ++ [i]) (64 * 2)) 2 =
      List.replicate 256 0 := fun i => kyber_cbd_zero
  simp only [h]
  rw [map_range_const]

theorem kyber_zero_matrix_entry (i j k : Nat) :
    ((((List.replicate 4 (List.replicate 4 (List.replicate 256 (0 : Int)))).getD i
        []).getD j []).getD k 0) = 0 := by
  rw [getD_replicate]
  by_cases hi : i < 4
  · rw [if_pos hi, getD_replicate]
    by_cases hj : j < 4
    · rw [if_pos hj]
      exact getD_replicate_zero 256 k
    · rw [if_neg hj]
      exact zeroLike_nil k
  · rw [if_neg hi]
    simp [List.getD]

theorem kyber_mvm_zero (v : List (List Int)) :
    Kyber1024.matrixVectorMul
        (List.replicate 4 (List.replicate 4 (List.replicate 256 0))) v =
      List.replicate 4 (List.replicate 256 0) := by
  unfold Kyber1024.matrixVectorMul
  have h : ∀ i : Nat, (List.range v.length).foldl
      (fun s j => Ring.polyAdd Kyber1024.Q s
        (Ring.polyMul Kyber1024.Q
          (((List.replicate 4 (List.replicate 4 (List.replicate 256 (0 : Int)))).getD i
            []).getD j []) (v.getD j [])))
      (List.replicate 256 0) = List.replicate 256 0 := by
    intro i
    refine fold_add_zero _ _ ?_ _
    intro j
    exact polyMul_zerolike_left (fun k => kyber_zero_matrix_entry i j k) _
  simp only [h]
  rw [List.length_replicate, map_range_const]

theorem kyber_mtvm_zero (v : List (List Int)) :
    Kyber1024.matrixTransposeVectorMul
        (List.replicate 4 (List.replicate 4 (List.replicate 256 0))) v =
      List.replicate 4 (List.replicate 256 0) := by
  unfold Kyber1024.matrixTransposeVectorMul
  have h : ∀ j : Nat, (List.range (List.replicate 4 (List.replicate 4
      (List.replicate 256 (0 : Int)))).length).foldl
      (fun s i => Ring.polyAdd Kyber1024.Q s
        (Ring.polyMul Kyber1024.Q
          (((List.replicate 4 (List.replicate 4 (List.replicate 256 (0 : Int)))).getD i
            []).getD j []) (v.getD i [])))
      (List.replicate 256 0) = List.replicate 256 0 := by
    intro j
    refine fold_add_zero _ _ ?_ _
    intro i
    exact polyMul_zerolike_left (fun k => kyber_zero_matrix_entry i j k) _
  simp only [h]
  rw [show ((List.replicate 4 (List.replicate 4 (List.replicate 256 (0 : Int)))).getD 0
    []).length = 4 from by decide]
  rw [map_range_const]

theorem kyber_dot_zero_left (b : List (List Int)) :
    Kyber1024.vectorDotProduct (List.replicate 4 (List.replicate 256 0)) b =
      List.replicate 256 0 := by
  unfold Kyber1024.vectorDotProduct
  refine fold_add_zero _ _ ?_ _
  intro i
  refine polyMul_zerolike_left ?_ _
  intro k
  rw [getD_replicate]
  by_cases hi : i < 4
  · rw [if_pos hi]
    exact getD_replicate_zero 256 k
  · rw [if_neg hi]
    exact zeroLike_nil k

theorem kyber_vadd_zz :
    Kyber1024.vectorAdd (List.replicate 4 (List.replicate 256 0))
        (List.replicate 4 (List.replicate 256 0)) =
      List.replicate 4 (List.replicate 256 0) := by
  unfold Kyber1024.vectorAdd
  have h : ∀ i : Nat, Ring.polyAdd Kyber1024.Q
      ((List.replicate 4 (List.replicate 256 (0 : Int))).getD i [])
      ((List.replicate 4 (List.replicate 256 (0 : Int))).getD i []) =
      List.replicate 256 0 := by
    intro i
    by_cases hi : i < 4
    · rw [getD_replicate, if_pos hi]
      exact polyAdd_zerolike (zeroLike_replicate 256) (zeroLike_replicate 256)
    · rw [getD_replicate, if_neg hi]
      exact polyAdd_zerolike zeroLike_nil zeroLike_nil
  simp only [h]
  rw [List.length_replicate, map_range_const]

theorem packPoly2_zero :
    Kyber1024.packPoly2 (List.replicate 256 0) = List.replicate 512 0 := by
  decide

theorem flatMap_replicate {α β : Type} (n : Nat) (x : α) (f : α → List β) :
    (List.replicate n x).flatMap f = (List.replicate n (f x)).flatten := by
  induction n with
  | zero => rfl
  | succ k ih =>
    rw [List.replicate_succ, List.flatMap_cons, ih, List.replicate_succ,
      List.flatten_cons]

theorem flatten_replicate_zero (n m : Nat) :
    (List.replicate n (List.replicate m (0 : Nat))).flatten =
      List.replicate (n * m) 0 := by
  induction n with
  | zero => simp
  | succ k ih =>
    rw [List.replicate_succ, List.flatten_cons, ih, ← List.replicate_add]
    congr 1
    ring

theorem kyber_packPublicKey_zero (rho : List Nat) :
    Kyber1024.packPublicKey (List.replicate 4 (List.replicate 256 0)) rho =
      rho ++ List.replicate 2048 0 := by
  unfold Kyber1024.packPublicKey
  rw [flatMap_replicate, packPoly2_zero, flatten_replicate_zero]

theorem kyber_keygen_zeroseed :
    Kyber1024.keygen zeroXOF (List.replicate 32 0) =
      (List.replicate 2080 0, List.replicate 2048 0) := by
  simp only [Kyber1024.keygen, kyber_genMatrix_zero, kyber_cbdvec_zero,
    kyber_mvm_zero, kyber_vadd_zz]
  rw [kyber_packPublicKey_zero]
  unfold Kyber1024.packPrivateKey
  rw [flatMap_replicate, packPoly2_zero, flatten_replicate_zero,
    show zeroXOF.xout (List.replicate 32 0) 32 = List.replicate 32 0 from rfl,
    ← List.replicate_add]

/-- The ciphertext `encaps` produces in the zero-XOF evaluation:
`u = 0` packs to 2048 zero bytes and `v = decode(0xff…ff)` packs each
coefficient 1664 as the two bytes `[128, 6]`. -/
def c1ct : List Nat := List.replicate 2048 0 ++ (List.replicate 256 [128, 6]).flatten

theorem readChunks2_zero_prefix :
    ∀ (n : Nat) (rest : List Nat),
      Kyber1024.readChunks2 n (List.replicate (2 * n) 0 ++ rest) =
        List.replicate n 0 := by
  intro n
  induction n with
  | zero => intro rest; rfl
  | succ k ih =>
    intro rest
    rw [show 2 * (k + 1) = 2 * k + 1 + 1 from by ring, List.replicate_succ,
      List.replicate_succ, List.cons_append, List.cons_append]
    show ((fromBytesLE ((0 :: 0 :: (List.replicate (2 * k) 0 ++ rest)).take 2) : Nat) : Int) ::
        Kyber1024.readChunks2 k ((0 :: 0 :: (List.replicate (2 * k) 0 ++ rest)).drop 2) =
      List.replicate (k + 1) 0
    rw [show (0 :: 0 :: (List.replicate (2 * k) 0 ++ rest)).take 2 = [0, 0] from rfl,
      show (0 :: 0 :: (List.replicate (2 * k) 0 ++ rest)).drop 2 =
        List.replicate (2 * k) 0 ++ rest from rfl,
      ih, List.replicate_succ]
    rfl

theorem readChunks2_pairs (b0 b1 : Nat) :
    ∀ n : Nat,
      Kyber1024.readChunks2 n ((List.replicate n [b0, b1]).flatten) =
        List.replicate n ((fromBytesLE [b0, b1] : Nat) : Int) := by
  intro n
  induction n with
  | zero => rfl
  | succ k ih =>
    rw [List.replicate_succ, List.flatten_cons]
    show ((fromBytesLE (([b0, b1] ++ (List.replicate k [b0, b1]).flatten).take 2) : Nat) : Int) ::
        Kyber1024.readChunks2 k (([b0, b1] ++ (List.replicate k [b0, b1]).flatten).drop 2) =
      List.replicate (k + 1) _
    rw [show ([b0, b1] ++ (List.replicate k [b0, b1]).flatten).take 2 = [b0, b1] from rfl,
      show ([b0, b1] ++ (List.replicate k [b0, b1]).flatten).drop 2 =
        (List.replicate k [b0, b1]).flatten from rfl,
      ih, List.replicate_succ]

theorem kyber_group256_zero :
    Kyber1024.group256 4 (List.replicate 1024 0) =
      List.replicate 4 (List.replicate 256 0) := by
  decide

theorem kyber_unpackPublicKey_zero :
    Kyber1024.unpackPublicKey (List.replicate 2080 0) =
      (List.replicate 4 (List.replicate 256 0), List.replicate 32 0) := by
  unfold Kyber1024.unpackPublicKey
  rw [show List.replicate 2080 (0 : Nat) = List.replicate 32 0 ++ List.replicate 2048 0 from by
        rw [← List.replicate_add],
      List.drop_left' (by rw [List.length_replicate]),
      show List.replicate 2048 (0 : Nat) = List.replicate (2 * 1024) 0 ++ [] from by
        rw [List.append_nil],
      readChunks2_zero_prefix, kyber_group256_zero]
  rfl

theorem padH_long (l rest : List Nat) (h : l.length = 32) :
    padH.hout (l ++ rest) = l := by
  show ((l ++ rest) ++ List.replicate 32 0).take 32 = l
  rw [List.append_assoc]
  exact List.take_left' h

theorem kyber_packCiphertext_c1 :
    Kyber1024.packCiphertext (List.replicate 4 (List.replicate 256 0))
        (List.replicate 256 1664) = c1ct := by
  unfold Kyber1024.packCiphertext c1ct
  rw [flatMap_replicate, packPoly2_zero, flatten_replicate_zero]
  unfold Kyber1024.packPoly2
  rw [flatMap_replicate]
  rfl

theorem kyber_hash_c1ct : padH.hout c1ct = List.replicate 32 0 := by
  unfold c1ct
  rw [show List.replicate 2048 (0 : Nat) = List.replicate 32 0 ++ List.replicate 2016 0 from by
        rw [← List.replicate_add],
      List.append_assoc]
  exact padH_long _ _ (List.length_replicate ..)

theorem kyber_encaps_zero :
    Kyber1024.encaps zeroXOF padH (List.replicate 2080 0) (List.replicate 32 255) =
      (c1ct, List.replicate 32 255) := by
  simp only [Kyber1024.encaps, kyber_unpackPublicKey_zero, kyber_genMatrix_zero,
    kyber_cbdvec_zero, kyber_mtvm_zero, kyber_vadd_zz, kyber_dot_zero_left,
    Kyber1024.polyAdd]
  rw [show (List.replicate 1 (List.replicate 256 (0 : Int))).getD 0 [] =
        List.replicate 256 0 from rfl,
      polyAdd_zerolike (zeroLike_replicate 256) (zeroLike_replicate 256),
      show Ring.polyAdd Kyber1024.Q (List.replicate 256 0)
          (Kyber1024.decodeMessage (List.replicate 32 255)) =
        List.replicate 256 1664 from by decide,
      kyber_packCiphertext_c1, kyber_hash_c1ct]
  rw [padH_long (List.replicate 32 255) (List.replicate 32 0) (List.length_replicate ..)]

theorem kyber_unpackCiphertext_c1 :
    Kyber1024.unpackCiphertext c1ct =
      (List.replicate 4 (List.replicate 256 0), List.replicate 256 1664) := by
  unfold Kyber1024.unpackCiphertext c1ct
  rw [show List.replicate 2048 (0 : Nat) ++ (List.replicate 256 [128, 6]).flatten =
        List.replicate (2 * 1024) 0 ++ (List.replicate 256 [128, 6]).flatten from rfl,
      readChunks2_zero_prefix, kyber_group256_zero,
      List.drop_left' (n := 2048) (by simp),
      readChunks2_pairs]
  rfl

theorem kyber_decaps_zero :
    Kyber1024.decaps padH c1ct (List.replicate 2048 0) = List.replicate 32 0 := by
  simp only [Kyber1024.decaps, kyber_unpackCiphertext_c1, Kyber1024.polySub]
  rw [show Kyber1024.unpackPrivateKey (List.replicate 2048 0) =
        List.replicate 4 (List.replicate 256 0) from by
        unfold Kyber1024.unpackPrivateKey
        rw [show List.replicate 2048 (0 : Nat) = List.replicate (2 * 1024) 0 ++ [] from by
              rw [List.append_nil],
            readChunks2_zero_prefix, kyber_group256_zero],
      kyber_dot_zero_left,
      show Ring.polySub Kyber1024.Q (List.replicate 256 1664) (List.replicate 256 0) =
        List.replicate 256 1664 from by decide,
      show Kyber1024.encodeMessage (List.replicate 256 1664) = List.replicate 32 0 from by
        decide,
      kyber_hash_c1ct]
  exact padH_long _ _ (List.length_replicate ..)

/-!
## Shared byte readers for the signature schemes

Both signature modules unpack coefficients by sequential
`int.from_bytes(buf[offset:offset+w], "little")` reads (unsigned or signed)
advancing the offset by `w`; a missing or truncated slice reads as 0, exactly
as in Python.
-/

/-- `n` sequential unsigned `w`-byte little-endian reads. -/
def readChunksU (w : Nat) : Nat → List Nat → List Int
  | 0, _ => []
  | n + 1, s => ((fromBytesLE (s.take w) : Nat) : Int) :: readChunksU w n (s.drop w)

/-- `n` sequential signed `w`-byte little-endian reads (`signed=True`). -/
def readChunksS (w : Nat) : Nat → List Nat → List Int
  | 0, _ => []
  | n + 1, s => fromBytesLEs (s.take w) :: readChunksS w n (s.drop w)

/-- Split a flat coefficient list into `k` polynomials of 256 coefficients. -/
def groupPolys : Nat → List Int → List (List Int)
  | 0, _ => []
  | k + 1, l => l.take 256 :: groupPolys k (l.drop 256)

/-- `v.to_bytes(n, "little", signed=True)`: two's complement bytes, total
model (in range on every use proved about below). -/
def toBytesSigned (n : Nat) (v : Int) : List Nat :=
  toBytesLE n (v.emod ((256 : Int) ^ n)).toNat

/-- `v.to_bytes(n, "little")` on an `Int` with Python's `OverflowError` made
explicit: negative or too-large values raise. -/
def intToBytesLEx (n : Nat) (v : Int) : Except Unit (List Nat) :=
  if 0 ≤ v ∧ v < ((256 : Int) ^ n) then Except.ok (toBytesLE n v.toNat)
  else Except.error ()

/-- `data += coeff.to_bytes(...)` accumulation with the raising converter:
the whole pack fails if any single conversion raises. -/
def flatMapE {α : Type} (f : α → Except Unit (List Nat)) : List α → Except Unit (List Nat)
  | [] => Except.ok []
  | x :: xs =>
    match f x with
    | Except.error e => Except.error e
    | Except.ok h =>
      match flatMapE f xs with
      | Except.error e => Except.error e
      | Except.ok t => Except.ok (h ++ t)

/-!
## `src/crypto/quantum_signatures.py` — class `QuantumSignature` (QS2)

The second, divergent Dilithium-like module.  `_shake256` is the `XOF`
parameter; `keygen`'s entropy draw is not modelled (no claim needs it);
`sign`'s unbounded `while True` rejection loop is modelled with explicit
fuel — a `none` result means the loop has not produced a signature within
`fuel` iterations.
-/

namespace QS2

abbrev N : Nat := 256
abbrev Q : Int := 8380417
abbrev K : Nat := 4
abbrev L : Nat := 4
abbrev ETA : Nat := 2
abbrev TAU : Nat := 39
abbrev BETA : Int := 78
abbrev GAMMA1 : Int := 131072
abbrev GAMMA2 : Int := (Q - 1) / 88

abbrev polyAdd : List Int → List Int → List Int := Ring.polyAdd Q
abbrev polySub : List Int → List Int → List Int := Ring.polySub Q
abbrev polyMul : List Int → List Int → List Int := Ring.polyMul Q

/-- The chunk loop of `_sample_uniform_poly` (same 3-byte shape as the KEM's,
duplicated in this module with the larger modulus; the two sequential
conditional writes expanded into their four cases as in the KEM embedding). -/
def uniformLoop : List Nat → Nat → List Int → List Int
  | b0 :: b1 :: b2 :: rest, j, poly =>
    if 256 ≤ j then poly
    else
      if (b0 : Int) + 256 * ((b1 : Int) % 16) < Q then
        if (b1 : Int) / 16 + 16 * (b2 : Int) < Q ∧ j + 1 < 256 then
          uniformLoop rest (j + 2)
            ((poly.set j ((b0 : Int) + 256 * ((b1 : Int) % 16))).set (j + 1)
              ((b1 : Int) / 16 + 16 * (b2 : Int)))
        else uniformLoop rest (j + 1) (poly.set j ((b0 : Int) + 256 * ((b1 : Int) % 16)))
      else
        if (b1 : Int) / 16 + 16 * (b2 : Int) < Q ∧ j < 256 then
          uniformLoop rest (j + 1) (poly.set j ((b1 : Int) / 16 + 16 * (b2 : Int)))
        else uniformLoop rest j poly
  | _, _, poly => poly

/-- `_sample_uniform_poly(seed)`. -/
def sampleUniformPoly (X : XOF) (seed : List Nat) : List Int :=
  uniformLoop (X.xout seed (3 * 256)) 0 (List.replicate 256 0)

/-- `_expand_matrix(rho)`. -/
def expandMatrix (X : XOF) (rho : List Nat) : List (List (List Int)) :=
  (List.range 4).map fun i => (List.range 4).map fun j =>
    sampleUniformPoly X (rho ++ [j, i])

/-- `_cbd(stream, eta)` (duplicated from the KEM module, larger modulus). -/
def cbd (stream : List Nat) (eta : Nat) : List Int :=
  (List.range 256).map fun i =>
    let a : Nat := ((List.range eta).map fun j =>
      let bitPos := 2 * eta * i + j
      if bitPos / 8 < stream.length then (stream.getD (bitPos / 8) 0 >>> (bitPos % 8)) &&& 1
      else 0).sum
    let b : Nat := ((List.range eta).map fun j =>
      let bitPos := 2 * eta * i + eta + j
      if bitPos / 8 < stream.length then (stream.getD (bitPos / 8) 0 >>> (bitPos % 8)) &&& 1
      else 0).sum
    ((a : Int) - (b : Int)) % Q

/-- `_sample_in_ball(seed, length)`: `length` CBD polynomials (not a sparse
ternary sampler in this module). -/
def sampleInBall (X : XOF) (seed : List Nat) (len : Nat) : List (List Int) :=
  (List.range len).map fun i => cbd (X.xout (seed ++ [i]) 64) ETA

/-- `_sample_gamma1(stream)`: `poly[i] = from_bytes(stream[i*5//8 : +4]) %
(2*GAMMA1 + 1) - GAMMA1` when the 4-byte window fits, else the coefficient
stays 0. -/
def sampleGamma1 (stream : List Nat) : List Int :=
  (List.range 256).map fun i =>
    let byteIdx := i * 5 / 8
    if byteIdx + 4 < stream.length then
      ((fromBytesLE (pySlice stream byteIdx (byteIdx + 4)) : Nat) : Int) %
          (2 * GAMMA1 + 1) - GAMMA1
    else 0

/-- `_sample_mask(seed)`: L polynomials from `shake256(seed + bytes([i]), 5*N)`. -/
def sampleMask (X : XOF) (seed : List Nat) : List (List Int) :=
  (List.range 4).map fun i => sampleGamma1 (X.xout (seed ++ [i]) (5 * 256))

/-- The `while len(positions) < TAU and i < len(stream)` loop of
`_sample_challenge`, consuming the stream byte by byte. -/
def challengeLoop : List Nat → List Nat → List Int → List Int
  | [], _, poly => poly
  | b :: rest, positions, poly =>
    if positions.length < 39 then
      let pos := b % 256
      if pos ∈ positions then challengeLoop rest positions poly
      else challengeLoop rest (pos :: positions)
        (poly.set pos (if b >>> 7 ≠ 0 then 1 else -1))
    else poly

/-- `_sample_challenge(seed)`: `stream = shake256(seed, 32)`, then the loop. -/
def sampleChallenge (X : XOF) (seed : List Nat) : List Int :=
  challengeLoop (X.xout seed 32) [] (List.replicate 256 0)

/-- `_matrix_vector_mul(A, v)`. -/
def matrixVectorMul (A : List (List (List Int))) (v : List (List Int)) :
    List (List Int) :=
  (List.range A.length).map fun i =>
    (List.range v.length).foldl
      (fun s j => polyAdd s (polyMul ((A.getD i []).getD j []) (v.getD j [])))
      (List.replicate 256 0)

/-- `_vector_add(a, b)`. -/
def vectorAdd (a b : List (List Int)) : List (List Int) :=
  (List.range a.length).map fun i => polyAdd (a.getD i []) (b.getD i [])

/-- `_vector_sub(a, b)`. -/
def vectorSub (a b : List (List Int)) : List (List Int) :=
  (List.range a.length).map fun i => polySub (a.getD i []) (b.getD i [])

/-- `_scalar_vector_mul(c, v)`: `[poly_mul(c, poly) for poly in v]`. -/
def scalarVectorMul (c : List Int) (v : List (List Int)) : List (List Int) :=
  v.map fun poly => polyMul c poly

/-- `_decompose_high(poly)`: `(coeff + GAMMA2) // (2*GAMMA2)` (Python floor
division). -/
def decomposeHigh (poly : List Int) : List Int :=
  poly.map fun c => (c + GAMMA2).fdiv (2 * GAMMA2)

/-- `_decompose_low(poly)`: `coeff % (2*GAMMA2) - GAMMA2`. -/
def decomposeLow (poly : List Int) : List Int :=
  poly.map fun c => c % (2 * GAMMA2) - GAMMA2

/-- `_high_bits(v)`. -/
def highBits (v : List (List Int)) : List (List Int) :=
  v.map decomposeHigh

/-- `_low_bits(v)`. -/
def lowBits (v : List (List Int)) : List (List Int) :=
  v.map decomposeLow

/-- `_check_bounds(v, bound)`: `True` iff some coefficient has `abs(coeff) >=
bound`. -/
def checkBounds (v : List (List Int)) (bound : Int) : Bool :=
  v.any fun poly => poly.any fun c => bound ≤ |c|

/-- `_pack_public_key(rho, t)`: 3-byte unsigned coefficients. -/
def packPublicKey (rho : List Nat) (t : List (List Int)) : List Nat :=
  rho ++ t.flatMap fun poly => poly.flatMap fun c => toBytesLE 3 c.toNat

/-- `_unpack_public_key(pk)`: returns `(rho, t)`. -/
def unpackPublicKey (pk : List Nat) : List Nat × List (List Int) :=
  (pySlice pk 0 32, groupPolys 4 (readChunksU 3 1024 (pk.drop 32)))

/-- `_unpack_private_key(sk)`: returns `(rho, K_bytes, s1, s2, t)` as nested
pairs. -/
def unpackPrivateKey (sk : List Nat) :
    List Nat × List Nat × List (List Int) × List (List Int) × List (List Int) :=
  (pySlice sk 0 32, pySlice sk 32 64,
    groupPolys 4 (readChunksS 2 1024 (sk.drop 64)),
    groupPolys 4 (readChunksS 2 1024 (sk.drop 2112)),
    groupPolys 4 (readChunksU 3 1024 (sk.drop 4160)))

/-- `_pack_w1(w1)`: 1-byte unsigned coefficients, total model (used in the
`sign` path whose coefficients are small). -/
def packW1 (w1 : List (List Int)) : List Nat :=
  w1.flatMap fun poly => poly.flatMap fun c => toBytesLE 1 c.toNat

/-- `_pack_w1(w1)` with the `to_bytes(1, "little")` `OverflowError` explicit
(used in the `verify` path, where totality is the claim under audit). -/
def packW1x (w1 : List (List Int)) : Except Unit (List Nat) :=
  flatMapE (fun poly => flatMapE (fun c => intToBytesLEx 1 c) poly) w1

/-- `_pack_signature(c, z)`: 1-byte then 3-byte signed coefficients. -/
def packSignature (c : List Int) (z : List (List Int)) : List Nat :=
  (c.flatMap fun v => toBytesSigned 1 v) ++
    z.flatMap fun poly => poly.flatMap fun v => toBytesSigned 3 v

/-- `_unpack_signature(sig)`: returns `(c, z)`. -/
def unpackSignature (sig : List Nat) : List Int × List (List Int) :=
  (readChunksS 1 256 sig, groupPolys 4 (readChunksS 3 1024 (sig.drop 256)))

/-- The `while True` rejection loop of `sign`, with fuel; the source's local
bindings (`y`, `w`, `w1`, `c`, `z`, `r0`) are inlined.  Note that on both
rejection paths the source executes a bare `continue`: the nonce is not
incremented, so the recursive call re-enters with the same nonce. -/
def signLoop (X : XOF) (A : List (List (List Int))) (mu kb : List Nat)
    (s1 s2 : List (List Int)) : Nat → Nat → Option (List Nat)
  | 0, _ => none
  | fuel + 1, nonce =>
    if checkBounds
        (vectorAdd (sampleMask X (kb ++ toBytesLE 2 nonce))
          (scalarVectorMul (sampleChallenge X (mu ++ packW1 (highBits
            (matrixVectorMul A (sampleMask X (kb ++ toBytesLE 2 nonce)))))) s1))
        (GAMMA1 - BETA) then
      signLoop X A mu kb s1 s2 fuel nonce
    else
      if checkBounds
          (lowBits (vectorSub
            (matrixVectorMul A (sampleMask X (kb ++ toBytesLE 2 nonce)))
            (scalarVectorMul (sampleChallenge X (mu ++ packW1 (highBits
              (matrixVectorMul A (sampleMask X (kb ++ toBytesLE 2 nonce)))))) s2)))
          (GAMMA2 - BETA) then
        signLoop X A mu kb s1 s2 fuel nonce
      else
        some (packSignature
          (sampleChallenge X (mu ++ packW1 (highBits
            (matrixVectorMul A (sampleMask X (kb ++ toBytesLE 2 nonce))))))
          (vectorAdd (sampleMask X (kb ++ toBytesLE 2 nonce))
            (scalarVectorMul (sampleChallenge X (mu ++ packW1 (highBits
              (matrixVectorMul A (sampleMask X (kb ++ toBytesLE 2 nonce)))))) s1)))

/-- `sign(message, private_key)` with fuel for the unbounded loop; the
source's local bindings are inlined. -/
def sign (X : XOF) (fuel : Nat) (message sk : List Nat) : Option (List Nat) :=
  signLoop X (expandMatrix X (unpackPrivateKey sk).1)
    (X.xout (message ++ packPublicKey (unpackPrivateKey sk).1
      (unpackPrivateKey sk).2.2.2.2) 64)
    (unpackPrivateKey sk).2.1 (unpackPrivateKey sk).2.2.1
    (unpackPrivateKey sk).2.2.2.1 fuel 0

/-- The body of `verify` (everything inside the `try`), with the only
possibly-raising primitive (`to_bytes` in `_pack_w1`) explicit.  Note the
source's guard: `if not check_bounds(z, GAMMA1 - BETA): return False` — it
early-returns `False` exactly when every coefficient of `z` is within
bounds. -/
def verifyBody (X : XOF) (message signature publicKey : List Nat) :
    Except Unit Bool :=
  if ¬ checkBounds (unpackSignature signature).2 (GAMMA1 - BETA) then
    Except.ok false
  else
    match packW1x (highBits (vectorSub
        (matrixVectorMul (expandMatrix X (unpackPublicKey publicKey).1)
          (unpackSignature signature).2)
        (scalarVectorMul (unpackSignature signature).1
          (unpackPublicKey publicKey).2))) with
    | Except.error e => Except.error e
    | Except.ok pw => Except.ok ((unpackSignature signature).1 ==
        sampleChallenge X (X.xout (message ++ publicKey) 64 ++ pw))

/-- `verify(message, signature, public_key)`: the `try/except Exception:
return False` wrapper around the body. -/
def verify (X : XOF) (message signature publicKey : List Nat) : Bool :=
  match verifyBody X message signature publicKey with
  | Except.ok b => b
  | Except.error _ => false

end QS2

/-!
## `src/crypto/signatures.py` — class `QuantumSignature` (QS)

The first Dilithium-like module.  `_shake256` is the `XOF` parameter and
`_sha3_256` the `H32` parameter.  Only the sampler and the `verify` path are
embedded (the claims under audit concern those).
-/

namespace QS

abbrev N : Nat := 256
abbrev Q : Int := 8380417
abbrev K : Nat := 4
abbrev L : Nat := 4
abbrev TAU : Nat := 39
abbrev BETA : Int := 78
abbrev GAMMA1 : Int := 131072
abbrev GAMMA2 : Int := (Q - 1) / 88

abbrev polyAdd : List Int → List Int → List Int := Ring.polyAdd Q
abbrev polySub : List Int → List Int → List Int := Ring.polySub Q
abbrev polyMul : List Int → List Int → List Int := Ring.polyMul Q

/-- The chunk loop of `_sample_uniform_poly`: 5-byte little-endian chunks,
each reduced `% Q` before the (vacuous) `coeff < Q` test; a trailing partial
chunk (impossible for the exact-length stream, whose length is divisible
by 5) is read from the remaining bytes, as Python's guarded
`stream[i + k] << (8 * k)` accumulation does; `lastChunk` is that final
partial-chunk step. -/
def lastChunk (s : List Nat) (j : Nat) (poly : List Int) : List Int :=
  if 256 ≤ j then poly
  else
    if ((fromBytesLE s : Nat) : Int) % Q < Q then
      poly.set j (((fromBytesLE s : Nat) : Int) % Q)
    else poly

def uniformLoop : List Nat → Nat → List Int → List Int
  | b0 :: b1 :: b2 :: b3 :: b4 :: rest, j, poly =>
    if 256 ≤ j then poly
    else
      if ((fromBytesLE [b0, b1, b2, b3, b4] : Nat) : Int) % Q < Q then
        uniformLoop rest (j + 1)
          (poly.set j (((fromBytesLE [b0, b1, b2, b3, b4] : Nat) : Int) % Q))
      else uniformLoop rest j poly
  | [], _, poly => poly
  | [b0], j, poly => lastChunk [b0] j poly
  | [b0, b1], j, poly => lastChunk [b0, b1] j poly
  | [b0, b1, b2], j, poly => lastChunk [b0, b1, b2] j poly
  | [b0, b1, b2, b3], j, poly => lastChunk [b0, b1, b2, b3] j poly

/-- `_sample_uniform_poly(seed)`: `stream = shake256(seed, 5*N)`, then the
chunk loop. -/
def sampleUniformPoly (X : XOF) (seed : List Nat) : List Int :=
  uniformLoop (X.xout seed (5 * 256)) 0 (List.replicate 256 0)

/-- `_expand_A(rho)`. -/
def expandA (X : XOF) (rho : List Nat) : List (List (List Int)) :=
  (List.range 4).map fun i => (List.range 4).map fun j =>
    sampleUniformPoly X (rho ++ [j, i])

/-- The `for i in range(N - tau, N)` loop of `_sample_in_ball`, consuming one
stream byte per index. -/
def ballLoop (signs tau : Nat) : List Nat → Nat → List Int → List Int
  | [], _, poly => poly
  | b :: rest, i, poly =>
    let j := b % (i + 1)
    let p1 := poly.set i (poly.getD j 0)
    ballLoop signs tau rest (i + 1)
      (p1.set j (if (signs >>> (i - (256 - tau))) &&& 1 ≠ 0 then 1 else -1))

/-- `_sample_in_ball(seed, tau)`: `stream = shake256(seed, 8 + tau)`,
`signs = stream[0]`, positions read from `stream[8:]`. -/
def sampleInBall (X : XOF) (seed : List Nat) (tau : Nat) : List Int :=
  let stream := X.xout seed (8 + tau)
  ballLoop (stream.getD 0 0) tau (stream.drop 8) (256 - tau) (List.replicate 256 0)

/-- `_matrix_vector_mul(A, v)`. -/
def matrixVectorMul (A : List (List (List Int))) (v : List (List Int)) :
    List (List Int) :=
  (List.range A.length).map fun i =>
    (List.range v.length).foldl
      (fun s j => polyAdd s (polyMul ((A.getD i []).getD j []) (v.getD j [])))
      (List.replicate 256 0)

/-- `_vector_sub(a, b)`. -/
def vectorSub (a b : List (List Int)) : List (List Int) :=
  (List.range a.length).map fun i => polySub (a.getD i []) (b.getD i [])

/-- `_scalar_vector_mul(c, v)`: `[poly_mul(c, v[i]) for i in range(len(v))]`. -/
def scalarVectorMul (c : List Int) (v : List (List Int)) : List (List Int) :=
  (List.range v.length).map fun i => polyMul c (v.getD i [])

/-- `_infinity_norm(v)`: running maximum of `abs(coeff)` over all
coefficients, starting from 0. -/
def infinityNorm (v : List (List Int)) : Int :=
  v.foldl (fun m poly => poly.foldl (fun m c => max m |c|) m) 0

/-- `_use_hint(h, w)`: high bits `w[i][j] // (2*GAMMA2)`, plus 1 where the
(in-range, nonzero) hint bit fires; `hint_idx` walks `i*N + j`. -/
def useHint (h : List Nat) (w : List (List Int)) : List (List Int) :=
  (List.range w.length).map fun i =>
    (List.range 256).map fun j =>
      let hintIdx := i * 256 + j
      if hintIdx < h.length ∧ h.getD hintIdx 0 ≠ 0 then
        ((w.getD i []).getD j 0).fdiv (2 * GAMMA2) + 1
      else ((w.getD i []).getD j 0).fdiv (2 * GAMMA2)

/-- `_unpack_public_key(pk)`: returns `(rho, t)`, 4-byte unsigned
coefficients. -/
def unpackPublicKey (pk : List Nat) : List Nat × List (List Int) :=
  (pySlice pk 0 32, groupPolys 4 (readChunksU 4 1024 (pk.drop 32)))

/-- The hint-bit extraction loop of `_unpack_signature`: bit `i` of the hint
bytes, 0 beyond their end. -/
def unpackHint (hintBytes : List Nat) : List Nat :=
  (List.range 1024).map fun i =>
    if i / 8 < hintBytes.length then (hintBytes.getD (i / 8) 0 >>> (i % 8)) &&& 1
    else 0

/-- `_unpack_signature(sig)`: returns `(c_tilde, z, h)`; `z` is 4-byte signed,
the hint bytes start at offset 32 + 4·1024 = 4128. -/
def unpackSignature (sig : List Nat) : List Nat × List (List Int) × List Nat :=
  (pySlice sig 0 32, groupPolys 4 (readChunksS 4 1024 (sig.drop 32)),
    unpackHint (pySlice sig 4128 (4128 + 128)))

/-- `_pack_w1(w1)` with the `to_bytes(2, "little")` `OverflowError` explicit. -/
def packW1x (w1 : List (List Int)) : Except Unit (List Nat) :=
  flatMapE (fun poly => flatMapE (fun c => intToBytesLEx 2 c) poly) w1

/-- The body of `verify` (everything inside the `try`): reject when the
infinity norm of `z` is at or above `GAMMA1 - BETA`, otherwise recompute the
challenge commitment and compare. -/
def verifyBody (X : XOF) (H : H32) (message signature pk : List Nat) :
    Except Unit Bool :=
  if GAMMA1 - BETA ≤ infinityNorm (unpackSignature signature).2.1 then
    Except.ok false
  else
    match packW1x (useHint (unpackSignature signature).2.2 (vectorSub
        (matrixVectorMul (expandA X (unpackPublicKey pk).1)
          (unpackSignature signature).2.1)
        (scalarVectorMul (sampleInBall X (unpackSignature signature).1 TAU)
          (unpackPublicKey pk).2))) with
    | Except.error e => Except.error e
    | Except.ok pw => Except.ok ((unpackSignature signature).1 ==
        H.hout (H.hout message ++ pw))

/-- `verify(message, signature, pk)`: the `try/except Exception: return False`
wrapper around the body. -/
def verify (X : XOF) (H : H32) (message signature pk : List Nat) : Bool :=
  match verifyBody X H message signature pk with
  | Except.ok b => b
  | Except.error _ => false

end QS

/-!
## Concrete adversarial inputs for the signature engines

`c3sig` is a hand-crafted signature for the `quantum_signatures` engine: its
challenge bytes decode to `c = [-1, 0, …, 0]` and the first 3-byte signed
coefficient of `z` is `0x800000 = -8388608`, far outside the
`GAMMA1 - BETA` bound, while every other byte is zero.  `c3pk` is the
all-zero public key (`rho = 0³²`, `t` decodes to the zero vector).
-/

def c3sig : List Nat :=
  255 :: (List.replicate 255 0 ++ ([0, 0, 128] ++ List.replicate 3069 0))

def c3pk : List Nat := List.replicate 32 0

/-!
## Generic access lemmas
-/

theorem pySlice_past_end (s : List Nat) (a b : Nat) (h : s.length ≤ a) :
    pySlice s a b = [] := by
  unfold pySlice
  rw [List.drop_eq_nil_of_le h, List.take_nil]

/-!
## C9 — canonical range of the arithmetic operations
-/

/-- C9: for every modulus Q > 0 (3329 for the KEM, 8380417 for both signature
modules) and all integer input polynomials, `_poly_add`, `_poly_sub` and
`_poly_mul` return polynomials of exactly N = 256 coefficients, every
coefficient read lying in the canonical range [0, Q): the reduction mod Q is
applied inside each operation, before its result is returned. -/
theorem c9_arith_ops_canonical (Q : Int) (hQ : 0 < Q) (a b : List Int) (i : Nat) :
    ((Ring.polyAdd Q a b).length = 256 ∧
      0 ≤ (Ring.polyAdd Q a b).getD i 0 ∧ (Ring.polyAdd Q a b).getD i 0 < Q) ∧
    ((Ring.polySub Q a b).length = 256 ∧
      0 ≤ (Ring.polySub Q a b).getD i 0 ∧ (Ring.polySub Q a b).getD i 0 < Q) ∧
    ((Ring.polyMul Q a b).length = 256 ∧
      0 ≤ (Ring.polyMul Q a b).getD i 0 ∧ (Ring.polyMul Q a b).getD i 0 < Q) := by
  have ha := Ring.canon_polyAdd hQ a b
  have hs := Ring.canon_polySub hQ a b
  have hm := Ring.canon_polyMul hQ a b
  exact ⟨⟨ha.1, Ring.canon_getD hQ ha i⟩, ⟨hs.1, Ring.canon_getD hQ hs i⟩,
    ⟨hm.1, Ring.canon_getD hQ hm i⟩⟩

/-- Witness for C9 at the KEM modulus and empty (all-zero-read) inputs. -/
theorem c9_arith_ops_canonical_witness :
    (0 : Int) < 3329 ∧
      (((Ring.polyAdd 3329 [] []).length = 256 ∧
        0 ≤ (Ring.polyAdd 3329 [] []).getD 0 0 ∧ (Ring.polyAdd 3329 [] []).getD 0 0 < 3329) ∧
      ((Ring.polySub 3329 [] []).length = 256 ∧
        0 ≤ (Ring.polySub 3329 [] []).getD 0 0 ∧ (Ring.polySub 3329 [] []).getD 0 0 < 3329) ∧
      ((Ring.polyMul 3329 [] []).length = 256 ∧
        0 ≤ (Ring.polyMul 3329 [] []).getD 0 0 ∧ (Ring.polyMul 3329 [] []).getD 0 0 < 3329)) :=
  ⟨by decide, c9_arith_ops_canonical 3329 (by decide) [] [] 0⟩

/-!
## C8 — `_poly_mul` is the negacyclic schoolbook convolution
-/

/-- C8: for every modulus and all input polynomials, `_poly_mul` returns the
256-coefficient polynomial whose k-th coefficient is the schoolbook negacyclic
convolution modulo X^N + 1: index (i+j) mod N accumulates `a[i]*b[j]`, with
the term subtracted whenever i + j ≥ N, the total reduced mod Q
(`negaCoeff`, written from the spec's contract). -/
theorem c8_poly_mul_negacyclic (Q : Int) (a b : List Int) :
    (Ring.polyMul Q a b).length = 256 ∧
      ∀ k, (Ring.polyMul Q a b).getD k 0 = Ring.negaCoeff Q a b k :=
  ⟨Ring.polyMul_length Q a b, fun k => Ring.polyMul_getD Q a b k⟩

/-!
## C4 — the challenge sampler of quantum_signatures.py cannot reach TAU
-/

/-- Number of nonzero coefficients of a polynomial. -/
def countNonzero (poly : List Int) : Nat := poly.countP fun c => c != 0

theorem countP_set_le (p : Int → Bool) : ∀ (l : List Int) (k : Nat) (v : Int),
    (l.set k v).countP p ≤ l.countP p + 1 := by
  intro l
  induction l with
  | nil => intro k v; simp [List.set]
  | cons x xs ih =>
    intro k v
    cases k with
    | zero =>
      simp only [List.set_cons_zero, List.countP_cons]
      have h1 : (if p v then 1 else 0) ≤ 1 := by split <;> omega
      omega
    | succ k =>
      simp only [List.set_cons_succ, List.countP_cons]
      have := ih k v
      omega

theorem challengeLoop_count_le : ∀ (s positions : List Nat) (poly : List Int),
    countNonzero (QS2.challengeLoop s positions poly) ≤
      countNonzero poly + s.length := by
  intro s
  induction s with
  | nil =>
    intro positions poly
    simp only [QS2.challengeLoop, List.length_nil]
    omega
  | cons b rest ih =>
    intro positions poly
    simp only [QS2.challengeLoop, List.length_cons]
    split
    · split
      · have := ih positions poly
        omega
      · have h1 := ih ((b % 256) :: positions)
          (poly.set (b % 256) (if b >>> 7 ≠ 0 then 1 else -1))
        have h2 := countP_set_le (fun c => c != 0) poly (b % 256)
          (if b >>> 7 ≠ 0 then 1 else -1)
        unfold countNonzero at h1 ⊢
        omega
    · omega

/-- C4 (code_bug evidence): `_sample_challenge` draws only 32 stream bytes and
each loop iteration can create at most one nonzero coefficient, so for every
XOF instance and every seed the sampled challenge has at most 32 — strictly
fewer than TAU = 39 — nonzero coefficients. -/
theorem c4_challenge_count_lt_tau (X : XOF) (seed : List Nat) :
    countNonzero (QS2.sampleChallenge X seed) < QS2.TAU := by
  unfold QS2.sampleChallenge
  have h := challengeLoop_count_le (X.xout seed 32) [] (List.replicate 256 0)
  rw [X.xlen seed 32] at h
  have hz : countNonzero (List.replicate 256 0) = 0 := by decide
  rw [hz] at h
  show countNonzero _ < 39
  omega

/-!
## C10 — `decaps` is total and short inputs read as zero
-/

theorem readChunks2_getD : ∀ (n k : Nat) (s : List Nat), k < n →
    (Kyber1024.readChunks2 n s).getD k 0 =
      ((fromBytesLE (pySlice s (2 * k) (2 * k + 2)) : Nat) : Int) := by
  intro n
  induction n with
  | zero => intro k s hk; omega
  | succ m ih =>
    intro k s hk
    rw [show Kyber1024.readChunks2 (m + 1) s =
      ((fromBytesLE (s.take 2) : Nat) : Int) :: Kyber1024.readChunks2 m (s.drop 2) from rfl]
    cases k with
    | zero =>
      rw [List.getD_cons_zero]
      have hs : pySlice s (2 * 0) (2 * 0 + 2) = s.take 2 := by
        simp [pySlice]
      rw [hs]
    | succ k' =>
      rw [List.getD_cons_succ, ih k' (s.drop 2) (by omega)]
      have harith : 2 * (k' + 1) = 2 * k' + 2 := by ring
      rw [harith]
      unfold pySlice
      rw [List.drop_drop]
      have e1 : 2 + 2 * k' = 2 * k' + 2 := by ring
      have e2 : 2 * k' + 2 - 2 * k' = 2 := by omega
      have e3 : 2 * k' + 2 + 2 - (2 * k' + 2) = 2 := by omega
      rw [e1, e2, e3]

/-- C10: `decaps` is a total function of arbitrary-length ciphertext and
private-key byte strings: it always returns a 32-byte shared secret, and the
2-byte coefficient reads of the unpack routines past the end of the buffer
yield the integer 0 (Python's zero-length slice) instead of failing. -/
theorem c10_decaps_total (H : H32) (ct sk : List Nat) (k : Nat) :
    (Kyber1024.decaps H ct sk).length = 32 ∧
      (k < 1024 → ct.length ≤ 2 * k →
        (Kyber1024.readChunks2 1024 ct).getD k 0 = 0) := by
  constructor
  · simp only [Kyber1024.decaps]
    exact H.hlen _
  · intro hk hlen
    rw [readChunks2_getD 1024 k ct hk, pySlice_past_end ct _ _ hlen]
    rfl

/-- Witness for C10 at the empty ciphertext and key. -/
theorem c10_decaps_total_witness :
    (Kyber1024.decaps padH [] []).length = 32 ∧
      ((0 : Nat) < 1024 ∧ ([] : List Nat).length ≤ 2 * 0 ∧
        (Kyber1024.readChunks2 1024 []).getD 0 0 = 0) :=
  ⟨(c10_decaps_total padH [] [] 0).1, by decide, by decide,
    (c10_decaps_total padH [] [] 0).2 (by decide) (by decide)⟩

/-!
## C5 — uniform samplers: rejection (KEM) versus modular reduction (QS)
-/

theorem mem_set_range {Q : Int} {poly : List Int} {v c : Int} {k : Nat}
    (hp : ∀ x ∈ poly, 0 ≤ x ∧ x < Q) (hv : 0 ≤ v ∧ v < Q)
    (hc : c ∈ poly.set k v) : 0 ≤ c ∧ c < Q := by
  rcases List.mem_or_eq_of_mem_set hc with h | rfl
  · exact hp c h
  · exact hv

theorem getD_range_of_mem {Q : Int} (hQ : 0 < Q) {r : List Int}
    (h : ∀ x ∈ r, 0 ≤ x ∧ x < Q) (i : Nat) : 0 ≤ r.getD i 0 ∧ r.getD i 0 < Q := by
  by_cases hi : i < r.length
  · refine h _ ?_
    rw [List.getD_eq_getElem r 0 hi]
    exact List.getElem_mem hi
  · rw [List.getD_eq_default r 0 (le_of_not_lt hi)]
    exact ⟨le_refl 0, hQ⟩

theorem d1_nonneg (b0 b1 : Nat) : 0 ≤ (b0 : Int) + 256 * ((b1 : Int) % 16) :=
  add_nonneg (Int.natCast_nonneg _)
    (mul_nonneg (by norm_num) (Int.emod_nonneg _ (by norm_num)))

theorem d2_nonneg (b1 b2 : Nat) : 0 ≤ (b1 : Int) / 16 + 16 * (b2 : Int) :=
  add_nonneg (Int.ediv_nonneg (Int.natCast_nonneg _) (by norm_num))
    (mul_nonneg (by norm_num) (Int.natCast_nonneg _))

theorem kyber_uniformLoop_range :
    ∀ (s : List Nat) (j : Nat) (poly : List Int),
      (∀ x ∈ poly, 0 ≤ x ∧ x < Kyber1024.Q) →
      ∀ c ∈ Kyber1024.uniformLoop s j poly, 0 ≤ c ∧ c < Kyber1024.Q := by
  intro s j poly
  induction s, j, poly using Kyber1024.uniformLoop.induct with
  | case1 b0 b1 b2 rest j poly hj =>
    intro hp
    rw [Kyber1024.uniformLoop, if_pos hj]
    exact hp
  | case2 b0 b1 b2 rest j poly hj h1 h2 ih =>
    intro hp
    rw [Kyber1024.uniformLoop, if_neg hj, if_pos h1, if_pos h2]
    exact ih fun x hx => mem_set_range
      (fun y hy => mem_set_range hp ⟨d1_nonneg b0 b1, h1⟩ hy)
      ⟨d2_nonneg b1 b2, h2.1⟩ hx
  | case3 b0 b1 b2 rest j poly hj h1 h2 ih =>
    intro hp
    rw [Kyber1024.uniformLoop, if_neg hj, if_pos h1, if_neg h2]
    exact ih fun x hx => mem_set_range hp ⟨d1_nonneg b0 b1, h1⟩ hx
  | case4 b0 b1 b2 rest j poly hj h1 h2 ih =>
    intro hp
    rw [Kyber1024.uniformLoop, if_neg hj, if_neg h1, if_pos h2]
    exact ih fun x hx => mem_set_range hp ⟨d2_nonneg b1 b2, h2.1⟩ hx
  | case5 b0 b1 b2 rest j poly hj h1 h2 ih =>
    intro hp
    rw [Kyber1024.uniformLoop, if_neg hj, if_neg h1, if_neg h2]
    exact ih hp
  | case6 t x poly h =>
    intro hp
    match t, h with
    | [], _ => exact hp
    | [a], _ => exact hp
    | [a, b], _ => exact hp
    | a :: b :: c :: rest, h => exact absurd rfl (h a b c rest)

theorem lastChunk_getD_lt (s : List Nat) (j : Nat) (poly : List Int) (i : Nat)
    (hi : i < j) : (QS.lastChunk s j poly).getD i 0 = poly.getD i 0 := by
  unfold QS.lastChunk
  split
  · rfl
  · split
    · rw [Ring.getD_set_ne (by omega)]
    · rfl

theorem qs_uniformLoop_getD_lt :
    ∀ (s : List Nat) (j : Nat) (poly : List Int) (i : Nat), i < j →
      (QS.uniformLoop s j poly).getD i 0 = poly.getD i 0 := by
  intro s j poly
  induction s, j, poly using QS.uniformLoop.induct with
  | case1 b0 b1 b2 b3 b4 rest j poly hj =>
    intro i hi
    rw [QS.uniformLoop, if_pos hj]
  | case2 b0 b1 b2 b3 b4 rest j poly hj hc ih =>
    intro i hi
    rw [QS.uniformLoop, if_neg hj, if_pos hc, ih i (by omega),
      Ring.getD_set_ne (by omega)]
  | case3 b0 b1 b2 b3 b4 rest j poly hj hc ih =>
    intro i hi
    rw [QS.uniformLoop, if_neg hj, if_neg hc]
    exact ih i hi
  | case4 j poly =>
    intro i hi
    rfl
  | case5 b0 j poly =>
    intro i hi
    exact lastChunk_getD_lt _ _ _ _ hi
  | case6 b0 b1 j poly =>
    intro i hi
    exact lastChunk_getD_lt _ _ _ _ hi
  | case7 b0 b1 b2 j poly =>
    intro i hi
    exact lastChunk_getD_lt _ _ _ _ hi
  | case8 b0 b1 b2 b3 j poly =>
    intro i hi
    exact lastChunk_getD_lt _ _ _ _ hi

theorem qs_uniformLoop_getD :
    ∀ (k : Nat) (s : List Nat) (j : Nat) (poly : List Int),
      j + k < 256 → poly.length = 256 → 5 * (k + 1) ≤ s.length →
      (QS.uniformLoop s j poly).getD (j + k) 0 =
        ((fromBytesLE (pySlice s (5 * k) (5 * k + 5)) : Nat) : Int) % QS.Q := by
  intro k
  induction k with
  | zero =>
    intro s j poly hj hlen hs
    match s, hs with
    | b0 :: b1 :: b2 :: b3 :: b4 :: rest, hs =>
      rw [QS.uniformLoop, if_neg (by omega : ¬ 256 ≤ j),
        if_pos (Int.emod_lt_of_pos _ (by decide : (0 : Int) < QS.Q))]
      simp only [Nat.add_zero]
      rw [qs_uniformLoop_getD_lt _ _ _ j (by omega),
        Ring.getD_set_self (by rw [hlen]; omega) _]
      rw [show pySlice (b0 :: b1 :: b2 :: b3 :: b4 :: rest) (5 * 0) (5 * 0 + 5) =
        [b0, b1, b2, b3, b4] from rfl]
  | succ k2 ih =>
    intro s j poly hj hlen hs
    match s, hs with
    | b0 :: b1 :: b2 :: b3 :: b4 :: rest, hs =>
      rw [QS.uniformLoop, if_neg (by omega : ¬ 256 ≤ j),
        if_pos (Int.emod_lt_of_pos _ (by decide : (0 : Int) < QS.Q))]
      have harg : j + (k2 + 1) = (j + 1) + k2 := by omega
      have hs2 : 5 * (k2 + 1) ≤ rest.length := by
        simp only [List.length_cons] at hs
        omega
      rw [harg, ih rest (j + 1) _ (by omega) (by simp [hlen]) hs2]
      have hsl : pySlice rest (5 * k2) (5 * k2 + 5) =
          pySlice (b0 :: b1 :: b2 :: b3 :: b4 :: rest) (5 * (k2 + 1)) (5 * (k2 + 1) + 5) := by
        unfold pySlice
        rw [show 5 * (k2 + 1) = 5 * k2 + 1 + 1 + 1 + 1 + 1 from by ring]
        rw [List.drop_succ_cons, List.drop_succ_cons, List.drop_succ_cons,
          List.drop_succ_cons, List.drop_succ_cons]
        rw [show 5 * k2 + 5 - 5 * k2 = 5 from by omega,
          show 5 * k2 + 1 + 1 + 1 + 1 + 1 + 5 - (5 * k2 + 1 + 1 + 1 + 1 + 1) = 5 from by
            omega]
      rw [hsl]

theorem qs_uniform_getD (X : XOF) (seed : List Nat) (j : Nat) (hj : j < 256) :
    (QS.sampleUniformPoly X seed).getD j 0 =
      ((fromBytesLE (pySlice (X.xout seed (5 * 256)) (5 * j) (5 * j + 5)) : Nat) : Int) %
        QS.Q := by
  unfold QS.sampleUniformPoly
  have h := qs_uniformLoop_getD j (X.xout seed (5 * 256)) 0 (List.replicate 256 0)
    (by omega) (List.length_replicate ..) (by rw [X.xlen]; omega)
  simpa using h

/-- Modelled from the spec's words (4.2, `uniform(seed)`): consume the
fixed-size chunks in stream order, reject (discard) any candidate ≥ Q, and
fill the N coefficients with the surviving candidates in order (zero-filled
if the stream is exhausted early).  Compared below against the source's
sampler. -/
def specRejectionFill (Q : Int) (candidates : List Int) : List Int :=
  let kept := (candidates.filter fun v => decide (v < Q)).take 256
  kept ++ List.replicate (256 - kept.length) 0

/-- C5 counterexample: with the XOF whose stream starts with the 5-byte chunk
8380418 = Q + 1 (an out-of-range candidate), coefficient 0 of
signatures.py's `_sample_uniform_poly` is 1 = (Q+1) % Q — the out-of-range
candidate was reduced mod Q and consumed, not rejected — whereas the
spec-modelled rejection sampler discards it and puts the next surviving
candidate (0) there. -/
theorem c5_reduction_not_rejection :
    QS.Q ≤ ((fromBytesLE (pySlice (cexXOF.xout [] (5 * 256)) 0 5) : Nat) : Int) ∧
      (QS.sampleUniformPoly cexXOF []).getD 0 0 = 1 ∧
      (specRejectionFill QS.Q (readChunksU 5 256 (cexXOF.xout [] (5 * 256)))).getD 0 0 = 0 ∧
      (1 : Int) ≠ 0 := by
  refine ⟨by decide, ?_, by decide, by decide⟩
  rw [qs_uniform_getD cexXOF [] 0 (by decide)]
  decide

/-- C5 amended: the KEM's `_sample_uniform_poly` is rejection-based — every
coefficient it returns lies in [0, Q) because candidates ≥ Q are discarded —
while signatures.py's `_sample_uniform_poly` reduces each 5-byte chunk mod Q
(its `coeff < Q` guard is vacuous), so its j-th coefficient is the j-th chunk
reduced rather than a non-rejected raw candidate. -/
theorem c5_uniform_samplers_amended (X : XOF) (seed : List Nat) (j : Nat)
    (hj : j < 256) :
    (0 ≤ (Kyber1024.sampleUniformPoly X seed).getD j 0 ∧
      (Kyber1024.sampleUniformPoly X seed).getD j 0 < Kyber1024.Q) ∧
    (QS.sampleUniformPoly X seed).getD j 0 =
      ((fromBytesLE (pySlice (X.xout seed (5 * 256)) (5 * j) (5 * j + 5)) : Nat) : Int) %
        QS.Q := by
  constructor
  · refine getD_range_of_mem (by decide) ?_ j
    exact kyber_uniformLoop_range _ 0 _ (fun x hx => by
      rcases List.eq_of_mem_replicate hx with rfl
      exact ⟨le_refl 0, by decide⟩)
  · exact qs_uniform_getD X seed j hj

/-- Witness for the amended C5 at the zero XOF and coefficient 0. -/
theorem c5_uniform_samplers_amended_witness :
    (0 : Nat) < 256 ∧
      ((0 ≤ (Kyber1024.sampleUniformPoly zeroXOF []).getD 0 0 ∧
        (Kyber1024.sampleUniformPoly zeroXOF []).getD 0 0 < Kyber1024.Q) ∧
      (QS.sampleUniformPoly zeroXOF []).getD 0 0 =
        ((fromBytesLE (pySlice (zeroXOF.xout [] (5 * 256)) (5 * 0) (5 * 0 + 5)) : Nat) : Int) %
          QS.Q) :=
  ⟨by decide, c5_uniform_samplers_amended zeroXOF [] 0 (by decide)⟩

/-!
## C7 — both verify implementations are total

The only primitive inside either `verify` body that can raise on adversarial
byte input is `coeff.to_bytes(...)` in `_pack_w1` (`OverflowError` for a
negative or too-wide coefficient).  The recovered `w'` is made of `_poly_sub`
outputs, whose coefficients lie in [0, Q), so the packed high bits lie in
[0, 45] — far inside the 1-, and 2-byte ranges — and the body always reaches
its boolean; the `try/except` wrapper then returns exactly that boolean.
-/

/-- C1 (code_bug evidence): for the keypair `keygen` derives from the all-zero
entropy seed under the zero-XOF (the zero keypair, with `t = A·s + e` holding
exactly) and the message `m = 0xff…ff`, the shared secret `decaps` recomputes
from `encaps`'s ciphertext differs from the shared secret `encaps` returned —
even though every noise polynomial is exactly zero, so the negligible
decryption-failure allowance does not apply.  The recovered message is
re-encoded through `_encode_message`'s `coeff > Q // 2` test, which maps the
noiseless one-bits (coefficient exactly `Q // 2`) back to zero. -/
theorem c1_kem_roundtrip_fails :
    Kyber1024.decaps padH
        (Kyber1024.encaps zeroXOF padH
          (Kyber1024.keygen zeroXOF (List.replicate 32 0)).1 (List.replicate 32 255)).1
        (Kyber1024.keygen zeroXOF (List.replicate 32 0)).2 ≠
      (Kyber1024.encaps zeroXOF padH
        (Kyber1024.keygen zeroXOF (List.replicate 32 0)).1 (List.replicate 32 255)).2 := by
  simp only [kyber_keygen_zeroseed, kyber_encaps_zero, kyber_decaps_zero]
  decide

/-- C2 (code_bug evidence): re-encoding the unperturbed decoding of the
message whose first bit is 1 yields the all-zero message, not the original:
`_encode_message` uses the strict test `coeff > Q // 2`, so the encoded
one-bit (coefficient exactly `Q // 2 = 1664`, distance 0 from `Q // 2`) is
read back as 0. -/
theorem c2_message_roundtrip_fails :
    Kyber1024.encodeMessage (Kyber1024.decodeMessage (1 :: List.replicate 31 0)) =
        List.replicate 32 0 ∧
      (1 :: List.replicate 31 0) ≠ List.replicate 32 0 :=
  ⟨by decide, by decide⟩

/-!
## Evaluation of the `quantum_signatures` engine on the zero XOF

The crafted-signature check for the inverted bound guard needs the engine's
whole `verify` path evaluated on concrete inputs; as with the KEM this is
done through zero-propagation lemmas rather than raw kernel evaluation of
the 256²-step polynomial products.
-/

theorem zeroXOF_xout (d : List Nat) (n : Nat) :
    zeroXOF.xout d n = List.replicate n 0 := rfl

theorem fromBytesLE_replicate_zero (k : Nat) :
    fromBytesLE (List.replicate k 0) = 0 := by
  induction k with
  | zero => rfl
  | succ k ih =>
    show 0 + 256 * fromBytesLE (List.replicate k 0) = 0
    rw [ih]

theorem fromBytesLEs_replicate_zero (k : Nat) :
    fromBytesLEs (List.replicate k 0) = 0 := by
  unfold fromBytesLEs
  simp only [fromBytesLE_replicate_zero]
  rw [if_pos]
  · rfl
  · have h := pow_pos (show 0 < 256 by norm_num) (List.replicate k (0 : Nat)).length
    omega

theorem readChunksS_zero_prefix (w n : Nat) (rest : List Nat) :
    readChunksS w n (List.replicate (w * n) 0 ++ rest) = List.replicate n 0 := by
  induction n generalizing rest with
  | zero => rfl
  | succ n ih =>
    have hsplit : List.replicate (w * (n + 1)) (0 : Nat) =
        List.replicate w 0 ++ List.replicate (w * n) 0 := by
      rw [← List.replicate_add]
      have h : w + w * n = w * (n + 1) := by ring
      rw [h]
    have hstep : readChunksS w (n + 1) (List.replicate (w * (n + 1)) 0 ++ rest) =
        fromBytesLEs ((List.replicate (w * (n + 1)) 0 ++ rest).take w) ::
          readChunksS w n ((List.replicate (w * (n + 1)) 0 ++ rest).drop w) := rfl
    rw [hstep, hsplit, List.append_assoc,
      List.take_left' (List.length_replicate ..),
      List.drop_left' (List.length_replicate ..),
      fromBytesLEs_replicate_zero, ih]
    rfl

theorem readChunksU_nil (w n : Nat) : readChunksU w n [] = List.replicate n 0 := by
  induction n with
  | zero => rfl
  | succ n ih =>
    show ((fromBytesLE (List.take w []) : Nat) : Int) ::
        readChunksU w n (List.drop w []) = 0 :: List.replicate n 0
    rw [List.take_nil, List.drop_nil, ih]
    rfl

theorem readChunksS_nil (w n : Nat) : readChunksS w n [] = List.replicate n 0 := by
  induction n with
  | zero => rfl
  | succ n ih =>
    show fromBytesLEs (List.take w []) :: readChunksS w n (List.drop w []) =
      0 :: List.replicate n 0
    rw [List.take_nil, List.drop_nil, ih]
    rfl

theorem groupPolys_replicate_zero (k : Nat) :
    groupPolys k (List.replicate (256 * k) 0) =
      List.replicate k (List.replicate 256 0) := by
  induction k with
  | zero => rfl
  | succ k ih =>
    show (List.replicate (256 * (k + 1)) (0 : Int)).take 256 ::
        groupPolys k ((List.replicate (256 * (k + 1)) (0 : Int)).drop 256) =
      List.replicate 256 0 :: List.replicate k (List.replicate 256 0)
    rw [List.take_replicate, List.drop_replicate]
    have h1 : min 256 (256 * (k + 1)) = 256 := by omega
    have h2 : 256 * (k + 1) - 256 = 256 * k := by omega
    rw [h1, h2, ih]

theorem polySub_zerolike {Q : Int} {a b : List Int} (ha : ZeroLike a)
    (hb : ZeroLike b) : Ring.polySub Q a b = List.replicate 256 0 := by
  unfold Ring.polySub
  have h : ∀ i : Nat, (a.getD i 0 - b.getD i 0) % Q = 0 := by
    intro i
    rw [ha i, hb i, sub_zero, Int.zero_emod]
  simp only [h]
  exact map_range_const 256 0

theorem qs2_uniform_zero (seed : List Nat) :
    QS2.sampleUniformPoly zeroXOF seed = List.replicate 256 0 := by
  show QS2.uniformLoop (List.replicate 768 0) 0 (List.replicate 256 0) =
    List.replicate 256 0
  decide

theorem qs2_expandMatrix_zero (rho : List Nat) :
    QS2.expandMatrix zeroXOF rho =
      List.replicate 4 (List.replicate 4 (List.replicate 256 0)) := by
  unfold QS2.expandMatrix
  simp only [qs2_uniform_zero]
  decide

theorem qs2_mvm_zero (v : List (List Int)) :
    QS2.matrixVectorMul
        (List.replicate 4 (List.replicate 4 (List.replicate 256 0))) v =
      List.replicate 4 (List.replicate 256 0) := by
  unfold QS2.matrixVectorMul
  have h : ∀ i : Nat, (List.range v.length).foldl
      (fun s j => Ring.polyAdd QS2.Q s
        (Ring.polyMul QS2.Q
          (((List.replicate 4 (List.replicate 4 (List.replicate 256 (0 : Int)))).getD i
            []).getD j []) (v.getD j [])))
      (List.replicate 256 0) = List.replicate 256 0 := by
    intro i
    refine fold_add_zero _ _ ?_ _
    intro j
    exact polyMul_zerolike_left (fun k => kyber_zero_matrix_entry i j k) _
  simp only [h]
  rw [List.length_replicate, map_range_const]

theorem qs2_svm_zero (c : List Int) :
    QS2.scalarVectorMul c (List.replicate 4 (List.replicate 256 0)) =
      List.replicate 4 (List.replicate 256 0) := by
  unfold QS2.scalarVectorMul
  rw [List.map_replicate]
  show List.replicate 4 (Ring.polyMul QS2.Q c (List.replicate 256 0)) =
    List.replicate 4 (List.replicate 256 0)
  rw [polyMul_zerolike_right (zeroLike_replicate 256) c]

theorem qs2_vsub_zz :
    QS2.vectorSub (List.replicate 4 (List.replicate 256 0))
        (List.replicate 4 (List.replicate 256 0)) =
      List.replicate 4 (List.replicate 256 0) := by
  unfold QS2.vectorSub
  have h : ∀ i : Nat, Ring.polySub QS2.Q
      ((List.replicate 4 (List.replicate 256 (0 : Int))).getD i [])
      ((List.replicate 4 (List.replicate 256 (0 : Int))).getD i []) =
      List.replicate 256 0 := by
    intro i
    by_cases hi : i < 4
    · rw [getD_replicate, if_pos hi]
      exact polySub_zerolike (zeroLike_replicate 256) (zeroLike_replicate 256)
    · rw [getD_replicate, if_neg hi]
      exact polySub_zerolike zeroLike_nil zeroLike_nil
  simp only [h]
  rw [List.length_replicate, map_range_const]

theorem qs2_highBits_zero :
    QS2.highBits (List.replicate 4 (List.replicate 256 0)) =
      List.replicate 4 (List.replicate 256 0) := by
  decide

theorem qs2_packW1x_zero :
    QS2.packW1x (List.replicate 4 (List.replicate 256 0)) =
      Except.ok (List.replicate 1024 0) := by
  rfl

theorem qs2_challenge_zero (seed : List Nat) :
    QS2.sampleChallenge zeroXOF seed = (-1 : Int) :: List.replicate 255 0 := by
  show QS2.challengeLoop (List.replicate 32 0) [] (List.replicate 256 0) =
    (-1 : Int) :: List.replicate 255 0
  decide

/-!
## Unpacking the crafted signature and the zero public key
-/

theorem c3_pk_rho : (QS2.unpackPublicKey c3pk).1 = List.replicate 32 0 := by
  decide

theorem c3_pk_t :
    (QS2.unpackPublicKey c3pk).2 = List.replicate 4 (List.replicate 256 0) := by
  show groupPolys 4 (readChunksU 3 1024 (c3pk.drop 32)) =
    List.replicate 4 (List.replicate 256 0)
  have h0 : c3pk.drop 32 = [] := by decide
  rw [h0, readChunksU_nil]
  have h1 : List.replicate 1024 (0 : Int) = List.replicate (256 * 4) 0 := by norm_num
  rw [h1, groupPolys_replicate_zero]

theorem c3_unpack_c :
    (QS2.unpackSignature c3sig).1 = (-1 : Int) :: List.replicate 255 0 := by
  show readChunksS 1 256 c3sig = (-1 : Int) :: List.replicate 255 0
  show fromBytesLEs (c3sig.take 1) :: readChunksS 1 255 (c3sig.drop 1) =
    (-1 : Int) :: List.replicate 255 0
  have h1 : c3sig.take 1 = [255] := rfl
  have h2 : c3sig.drop 1 =
      List.replicate 255 0 ++ ([0, 0, 128] ++ List.replicate 3069 0) := rfl
  rw [h1, h2]
  have h3 : List.replicate 255 (0 : Nat) = List.replicate (1 * 255) 0 := by norm_num
  rw [h3, readChunksS_zero_prefix]
  have h4 : fromBytesLEs [255] = -1 := by decide
  rw [h4]

theorem c3_drop256 :
    c3sig.drop 256 = [0, 0, 128] ++ List.replicate 3069 0 := by
  show (List.replicate 255 0 ++ ([0, 0, 128] ++ List.replicate 3069 0)).drop 255 =
    [0, 0, 128] ++ List.replicate 3069 0
  exact List.drop_left' (List.length_replicate ..)

theorem c3_readz :
    readChunksS 3 1024 (c3sig.drop 256) =
      (-8388608 : Int) :: List.replicate 1023 0 := by
  rw [c3_drop256]
  have hstep : readChunksS 3 1024 ([0, 0, 128] ++ List.replicate 3069 0) =
      fromBytesLEs (([0, 0, 128] ++ List.replicate 3069 0).take 3) ::
        readChunksS 3 1023 (([0, 0, 128] ++ List.replicate 3069 0).drop 3) := rfl
  rw [hstep]
  have h1 : ([0, 0, 128] ++ List.replicate 3069 (0 : Nat)).take 3 = [0, 0, 128] := rfl
  have h2 : ([0, 0, 128] ++ List.replicate 3069 (0 : Nat)).drop 3 =
      List.replicate 3069 0 := rfl
  rw [h1, h2]
  have h3 : List.replicate 3069 (0 : Nat) = List.replicate (3 * 1023) 0 ++ [] := by
    rw [List.append_nil]
  rw [h3, readChunksS_zero_prefix]
  have h4 : fromBytesLEs [0, 0, 128] = -8388608 := by decide
  rw [h4]

theorem c3_unpack_z :
    (QS2.unpackSignature c3sig).2 =
      ((-8388608 : Int) :: List.replicate 255 0) ::
        List.replicate 3 (List.replicate 256 0) := by
  show groupPolys 4 (readChunksS 3 1024 (c3sig.drop 256)) =
    ((-8388608 : Int) :: List.replicate 255 0) ::
      List.replicate 3 (List.replicate 256 0)
  rw [c3_readz]
  show (((-8388608 : Int) :: List.replicate 1023 0).take 256) ::
      groupPolys 3 (((-8388608 : Int) :: List.replicate 1023 0).drop 256) =
    ((-8388608 : Int) :: List.replicate 255 0) ::
      List.replicate 3 (List.replicate 256 0)
  have h1 : ((-8388608 : Int) :: List.replicate 1023 0).take 256 =
      (-8388608 : Int) :: List.replicate 255 0 := by
    show (-8388608 : Int) :: (List.replicate 1023 (0 : Int)).take 255 =
      (-8388608 : Int) :: List.replicate 255 0
    rw [List.take_replicate]
    have hm : min 255 1023 = 255 := by omega
    rw [hm]
  have h2 : ((-8388608 : Int) :: List.replicate 1023 0).drop 256 =
      List.replicate (256 * 3) 0 := by
    show (List.replicate 1023 (0 : Int)).drop 255 = List.replicate (256 * 3) 0
    rw [List.drop_replicate]
  rw [h1, h2, groupPolys_replicate_zero]

theorem c3_checkBounds_true :
    QS2.checkBounds (QS2.unpackSignature c3sig).2 (QS2.GAMMA1 - QS2.BETA) = true := by
  rw [c3_unpack_z]
  decide

theorem qs2_verify_of_body (X : XOF) (m sig pk : List Nat) (b : Bool)
    (h : QS2.verifyBody X m sig pk = Except.ok b) : QS2.verify X m sig pk = b := by
  unfold QS2.verify
  rw [h]

theorem c3_body :
    QS2.verifyBody zeroXOF [] c3sig c3pk = Except.ok true := by
  unfold QS2.verifyBody
  rw [if_neg (not_not_intro c3_checkBounds_true)]
  rw [c3_unpack_c, c3_unpack_z, c3_pk_rho, c3_pk_t, qs2_expandMatrix_zero,
    qs2_mvm_zero, qs2_svm_zero, qs2_vsub_zz, qs2_highBits_zero, qs2_packW1x_zero]
  rfl

/-- C3 (code_bug evidence): `quantum_signatures.py`'s `verify` ACCEPTS a
crafted signature whose response vector `z` is far outside the
`GAMMA1 − BETA` bound.  The source's guard `if not self._check_bounds(z,
self.GAMMA1 - self.BETA): return False` is inverted: `_check_bounds` returns
`True` exactly when some coefficient is out of range, so in-bound signatures
are rejected and out-of-bound ones fall through.  Against the all-zero public
key, `c3sig` — whose first `z` coefficient unpacks to `−8388608` — passes the
recomputed-challenge comparison and `verify` returns `true` instead of the
required `false`. -/
theorem c3_verify_accepts_out_of_bound_z :
    QS2.GAMMA1 - QS2.BETA ≤ |((QS2.unpackSignature c3sig).2.getD 0 []).getD 0 0| ∧
      QS2.verify zeroXOF [] c3sig c3pk = true := by
  constructor
  · rw [c3_unpack_z]
    decide
  · exact qs2_verify_of_body _ _ _ _ true c3_body

/-!
## The `quantum_signatures` signing loop on the zero XOF

With the zero XOF and the empty private key, every mask coefficient is
`0 % (2·GAMMA1 + 1) − GAMMA1 = −131072`, so every candidate `z` coefficient
is `(−131072 + 0) % Q = 8249345 ≥ GAMMA1 − BETA` and every iteration of the
rejection loop rejects — re-entering with the same nonce, hence the same
candidate, forever.
-/

theorem qs2_sampleGamma1_zero :
    QS2.sampleGamma1 (List.replicate 1280 0) = List.replicate 256 (-131072) := by
  decide

theorem qs2_sampleMask_zero (seed : List Nat) :
    QS2.sampleMask zeroXOF seed = List.replicate 4 (List.replicate 256 (-131072)) := by
  unfold QS2.sampleMask
  have h : ∀ i : Nat, QS2.sampleGamma1 (zeroXOF.xout (seed ++ [i]) (5 * 256)) =
      List.replicate 256 (-131072) := fun i => qs2_sampleGamma1_zero
  simp only [h]
  rw [map_range_const]

theorem qs2_vadd_y :
    QS2.vectorAdd (List.replicate 4 (List.replicate 256 (-131072)))
        (List.replicate 4 (List.replicate 256 0)) =
      List.replicate 4 (List.replicate 256 8249345) := by
  decide

theorem qs2_signLoop_zero_step (fuel nonce : Nat) :
    QS2.signLoop zeroXOF (List.replicate 4 (List.replicate 4 (List.replicate 256 0)))
        (List.replicate 64 0) [] (List.replicate 4 (List.replicate 256 0))
        (List.replicate 4 (List.replicate 256 0)) (fuel + 1) nonce =
      QS2.signLoop zeroXOF (List.replicate 4 (List.replicate 4 (List.replicate 256 0)))
        (List.replicate 64 0) [] (List.replicate 4 (List.replicate 256 0))
        (List.replicate 4 (List.replicate 256 0)) fuel nonce := by
  conv_lhs => unfold QS2.signLoop
  rw [qs2_sampleMask_zero, qs2_mvm_zero, qs2_challenge_zero, qs2_svm_zero, qs2_vadd_y]
  rw [if_pos (show QS2.checkBounds (List.replicate 4 (List.replicate 256 (8249345 : Int)))
    (QS2.GAMMA1 - QS2.BETA) = true from by decide)]

theorem qs2_signLoop_zero_none (fuel nonce : Nat) :
    QS2.signLoop zeroXOF (List.replicate 4 (List.replicate 4 (List.replicate 256 0)))
        (List.replicate 64 0) [] (List.replicate 4 (List.replicate 256 0))
        (List.replicate 4 (List.replicate 256 0)) fuel nonce = none := by
  induction fuel generalizing nonce with
  | zero => rfl
  | succ fuel ih =>
    rw [qs2_signLoop_zero_step]
    exact ih nonce

theorem qs2_sign_zero_none (fuel : Nat) : QS2.sign zeroXOF fuel [] [] = none := by
  unfold QS2.sign
  have h1 : (QS2.unpackPrivateKey []).1 = [] := rfl
  have h2 : (QS2.unpackPrivateKey []).2.1 = [] := rfl
  have h3 : (QS2.unpackPrivateKey []).2.2.1 =
      List.replicate 4 (List.replicate 256 0) := by
    show groupPolys 4 (readChunksS 2 1024 (([] : List Nat).drop 64)) =
      List.replicate 4 (List.replicate 256 0)
    rw [List.drop_nil, readChunksS_nil]
    have h : List.replicate 1024 (0 : Int) = List.replicate (256 * 4) 0 := by norm_num
    rw [h, groupPolys_replicate_zero]
  have h4 : (QS2.unpackPrivateKey []).2.2.2.1 =
      List.replicate 4 (List.replicate 256 0) := by
    show groupPolys 4 (readChunksS 2 1024 (([] : List Nat).drop 2112)) =
      List.replicate 4 (List.replicate 256 0)
    rw [List.drop_nil, readChunksS_nil]
    have h : List.replicate 1024 (0 : Int) = List.replicate (256 * 4) 0 := by norm_num
    rw [h, groupPolys_replicate_zero]
  rw [h1, h2, h3, h4, qs2_expandMatrix_zero, zeroXOF_xout]
  exact qs2_signLoop_zero_none fuel 0

/-- C6 (code_bug evidence): the `quantum_signatures` signing loop has no
iteration cap, no `SamplingExhausted` failure, and no nonce increment.  On
the zero XOF with empty message and private key, `sign` produces no
signature within ANY iteration budget (the loop rejects forever), and each
rejected iteration re-enters the loop with the SAME nonce — the source's
rejection paths execute a bare `continue` without `nonce += 1` — so the next
candidate mask is identical and the `while True` loop can never make
progress. -/
theorem c6_sign_unbounded_no_nonce_increment :
    (∀ fuel : Nat, QS2.sign zeroXOF fuel [] [] = none) ∧
      (∀ fuel nonce : Nat,
        QS2.signLoop zeroXOF
            (List.replicate 4 (List.replicate 4 (List.replicate 256 0)))
            (List.replicate 64 0) [] (List.replicate 4 (List.replicate 256 0))
            (List.replicate 4 (List.replicate 256 0)) (fuel + 1) nonce =
          QS2.signLoop zeroXOF
            (List.replicate 4 (List.replicate 4 (List.replicate 256 0)))
            (List.replicate 64 0) [] (List.replicate 4 (List.replicate 256 0))
            (List.replicate 4 (List.replicate 256 0)) fuel nonce) :=
  ⟨fun fuel => qs2_sign_zero_none fuel,
    fun fuel nonce => qs2_signLoop_zero_step fuel nonce⟩

end QXChain